import Mathlib

/-!
Verification of the nakamoto compact-block-filter (CBF) manager.

This file gives a shallow embedding of the two source files that the claims
are about:

* `chain/src/filter/cache.rs` — the `FilterCache` (an in-memory, non-empty
  sequence of `StoredHeader` records fronting a persistent store) with
  `verify`, `get_header`, `get_headers`, `import_headers`, `tip`, `height`
  and `rollback`;
* `p2p/src/protocol/cbfmgr.rs` — the `FilterManager` state machine with
  `rescan`, `get_cfilters`, `received_cfheaders`, `received_cfilter`,
  `send_getcfheaders`, `sync`, `headers_imported`, `process` and the
  `HeightIterator`.

Machine integers: all heights, hashes and times are modelled as `Nat`.
Heights in the source are `u64` and stay far below `2^64` on every code
path the claims touch (all arithmetic on them is guarded before any
subtraction), so no modular reduction is needed.  Cryptographic hashing
and BIP 158 filter matching live outside the two source files and are
abstracted into an `Env` of opaque functions (see `Env`).  Stateful Rust
methods become functions returning the new state together with the list
of emitted outputs and an `Except`-style result; Rust panics
(`panic!`, `assert!`, `.unwrap()`, `.expect(..)`) are modelled as the
error value `PErr.panic`.
-/

namespace Nakamoto

/-- Modelled from the spec: the cryptographic and BIP 158 primitives used by
the manager live in `nakamoto_common` (not under `src/`), so they are
abstracted here.  `H hash prev` is the filter-header commitment
`H(filter_hash || previous_filter_header)` (spec section 3); `filterHash`
is the hash a `BlockFilter` derives from its bytes; `matchAny` / `matchAll`
are the BIP 158 Golomb-coded-set queries, returning `none` on a BIP 158
decoding error (`bip158::Error`). -/
structure Env where
  H : Nat → Nat → Nat
  filterHash : Nat → Nat
  matchAny : Nat → Nat → List Nat → Option Bool
  matchAll : Nat → Nat → List Nat → Option Bool

/-- StoredHeader from `cache.rs`: a pair of a filter hash and a filter
header, stored per height. -/
structure StoredHeader where
  hash : Nat
  header : Nat
  deriving DecidableEq, Repr

/-- FilterCache from `cache.rs`: the non-empty in-memory sequence
(`headHeader :: tail`, mirroring `NonEmpty<StoredHeader>`) together with the
persistent store contents.  The store (a `Store` trait object in the source)
is modelled by the list of records it holds plus a flag saying whether its
operations succeed; `put` is atomic per the spec (section 4.A). -/
structure FilterCache where
  headHeader : StoredHeader
  tail : List StoredHeader
  store : List StoredHeader
  storeOk : Bool
  deriving DecidableEq, Repr

/-- Whole in-memory sequence of the cache, indexed by height. -/
def FilterCache.headers (c : FilterCache) : List StoredHeader :=
  c.headHeader :: c.tail

/-- Source `height()`: `self.headers.tail.len()`. -/
def FilterCache.height (c : FilterCache) : Nat :=
  c.tail.length

/-- Source `tip()`: the last element of the non-empty sequence. -/
def FilterCache.tip (c : FilterCache) : StoredHeader :=
  c.tail.getLast?.getD c.headHeader

/-- Source `get_header(height)`. -/
def FilterCache.getHeader (c : FilterCache) (h : Nat) : Option (Nat × Nat) :=
  (c.headers[h]?).map (fun s => (s.hash, s.header))

/-- Source `get_headers(range)`: the prefix of `[start, stop)` present. -/
def FilterCache.getHeaders (c : FilterCache) (start stop : Nat) : List (Nat × Nat) :=
  ((c.headers.drop start).take (stop - start)).map (fun s => (s.hash, s.header))

/-- Modelled from the spec: `get_prev_header(h)` of the `Filters` trait
(defined in `nakamoto_common`, not under `src/`) returns `cache[h-1].header`,
or the genesis previous header (zero) when `h == 0` (spec section 4.B). -/
def FilterCache.getPrevHeader (c : FilterCache) (h : Nat) : Option Nat :=
  if h = 0 then some 0 else (c.getHeader (h - 1)).map (fun p => p.2)

/-- Source `import_headers(headers)`: extends the in-memory tail first, then
writes to the store; the store `put` returns the new tip height.  On a store
failure the in-memory extension has already happened. -/
def FilterCache.importHeaders (c : FilterCache) (hs : List (Nat × Nat)) :
    FilterCache × Except Unit Nat :=
  let stored := hs.map (fun p => StoredHeader.mk p.1 p.2)
  let c1 : FilterCache := { c with tail := c.tail ++ stored }
  if c.storeOk then
    let c2 : FilterCache := { c1 with store := c1.store ++ stored }
    (c2, Except.ok (c2.store.length - 1))
  else
    (c1, Except.error ())

/-- Source `rollback(n)`: rolls the store back to `height - n`, then
truncates the in-memory tail to that height.  Caller must ensure
`n <= height`. -/
def FilterCache.rollback (c : FilterCache) (n : Nat) : FilterCache × Except Unit Unit :=
  let newHeight := c.height - n
  if c.storeOk then
    ({ c with store := c.store.take (newHeight + 1), tail := c.tail.take newHeight },
      Except.ok ())
  else
    (c, Except.error ())

/-- Helper for `verify`: checks every record's header equals
`H(hash || previous header)`, threading the previous header. -/
def verifyChain (H : Nat → Nat → Nat) : Nat → List StoredHeader → Bool
  | _, [] => true
  | prev, s :: rest => (s.header == H s.hash prev) && verifyChain H s.header rest

/-- Source `verify(network)`: the first record's header must equal the
network's genesis filter header (abstracted to the value `genesisHeader`),
and the whole sequence must chain starting from the default (zero) previous
header. -/
def FilterCache.verify (Hf : Nat → Nat → Nat) (genesisHeader : Nat) (c : FilterCache) : Bool :=
  (c.headHeader.header == genesisHeader) && verifyChain Hf 0 c.headers

/-- Block-header tree interface (spec section 6): a list of block hashes
indexed by height, genesis at index 0.  The manager only reads
`height()`, `tip()`, `get_block(hash)` and `get_block_by_height(h)`. -/
structure Tree where
  blocks : List Nat
  deriving DecidableEq, Repr

/-- Source `tree.height()`: number of blocks minus one. -/
def Tree.height (t : Tree) : Nat :=
  t.blocks.length - 1

/-- Source `tree.get_block_by_height(h)` (only its block hash is used). -/
def Tree.getBlockByHeight (t : Tree) (h : Nat) : Option Nat :=
  t.blocks[h]?

/-- Source `tree.get_block(hash)` (only the returned height is used). -/
def Tree.getBlock (t : Tree) (bh : Nat) : Option Nat :=
  List.indexOf? bh t.blocks

/-- Source `tree.tip()` (only its block hash is used). -/
def Tree.tip (t : Tree) : Nat :=
  t.blocks.getLast?.getD 0

/-- Rescan state from `cbfmgr.rs` (struct `Rescan`).  `requested` models the
`BTreeSet<Height>` (kept duplicate-free), `received` the
`HashMap<Height, (BlockFilter, BlockHash)>` as an association list keyed by
height. -/
structure Rescan where
  active : Bool
  current : Nat
  start : Option Nat
  stop : Option Nat
  watch : List Nat
  transactions : List (Nat × List Nat)
  requested : List Nat
  received : List (Nat × Nat × Nat)
  deriving DecidableEq, Repr

/-- Events emitted by the manager (enum `Event` in `cbfmgr.rs`); the
variants not exercised by the claims (`TimedOut`, `RollbackDetected`) are
omitted because no modelled code path emits them. -/
inductive Event where
  | filterReceived (fromPeer : Nat) (filter : Nat) (height : Nat) (blockHash : Nat)
  | filterProcessed (block : Nat) (height : Nat) (matched : Bool)
  | filterHeadersImported (height : Nat) (blockHash : Nat)
  | syncing (peer : Nat) (startHeight : Nat) (stopHash : Nat)
  | synced (height : Nat)
  | requestCanceled (reason : String)
  | rescanCompleted (height : Nat)
  deriving DecidableEq, Repr

/-- Outputs of the manager: outbound messages (with their request timeout)
and events, in emission order. -/
inductive Out where
  | getCfheadersMsg (peer : Nat) (startHeight : Nat) (stopHash : Nat) (timeout : Nat)
  | getCfiltersMsg (peer : Nat) (startHeight : Nat) (stopHash : Nat) (timeout : Nat)
  | event (e : Event)
  deriving DecidableEq, Repr

/-- Errors of the manager: `Error::Ignored`, `Error::InvalidMessage`,
`Error::Filters` and `GetFiltersError::{InvalidRange, NotConnected}` from
the source, plus `panic` for Rust panics (`panic!`, failed `assert!`,
`.unwrap()`, `.expect(..)`). -/
inductive PErr where
  | ignored (msg : String)
  | invalidMessage (reason : String)
  | filters
  | invalidRange
  | notConnected
  | panic
  deriving DecidableEq, Repr

/-- Wire message `cfheaders` (the fields the manager reads). -/
structure CFHeadersMsg where
  filterType : Nat
  stopHash : Nat
  prevHeader : Nat
  filterHashes : List Nat
  deriving DecidableEq, Repr

/-- Wire message `cfilter` (the fields the manager reads); `filter` stands
for the raw filter bytes, abstracted to an opaque value hashed by
`Env.filterHash`. -/
structure CFilterMsg where
  filterType : Nat
  blockHash : Nat
  filter : Nat
  deriving DecidableEq, Repr

/-- Range bound, mirroring `std::ops::Bound<Height>`. -/
inductive Bound where
  | unbounded
  | included (h : Nat)
  | excluded (h : Nat)
  deriving DecidableEq, Repr

/-- Manager state from `cbfmgr.rs` (struct `FilterManager`).  `peers` models
the `AddressBook` as the ordered list of negotiated peer ids; `inflight` the
`HashMap<BlockHash, LocalTime>` as an association list.  `requestTimeout`
is `config.request_timeout`. -/
structure FilterManager where
  requestTimeout : Nat
  peers : List Nat
  rescan : Rescan
  filters : FilterCache
  inflight : List (Nat × Nat)
  deriving DecidableEq, Repr

/-- HeightIterator from `cbfmgr.rs`, unrolled into the finite list of ranges
it yields.  Each `next()` yields `start..min(stop, start + step - 1)` and
advances `start` to one past the yielded stop.  The fuel `stop - start` is
enough because every yielded range advances `start` by at least one (the
manager always calls this with `step = MAX_MESSAGE_CFILTERS >= 1`). -/
def heightRangesGo (step : Nat) : Nat → Nat → Nat → List (Nat × Nat)
  | 0, _, _ => []
  | fuel + 1, start, stop =>
    if start < stop then
      let e := min stop (start + step - 1)
      (start, e) :: heightRangesGo step fuel (e + 1) stop
    else []

/-- List of ranges yielded by `HeightIterator { start, stop, step }`. -/
def heightRanges (start stop step : Nat) : List (Nat × Nat) :=
  heightRangesGo step (stop - start) start stop

/-- Modelled from the spec: `AddressBook::cycle()` (in `nakamoto_common`,
not under `src/`) cycles round-robin through the peer table; batch `i` is
paired with the peer at index `i` modulo the table size (spec
section 4.D). -/
def cyclePeers (peers : List Nat) (i : Nat) : Nat :=
  peers.getD (i % peers.length) 0

/-- Insertion into the `BTreeSet<Height>` model: a duplicate-free list;
inserting an existing element is a no-op. -/
def insertSet (l : List Nat) (x : Nat) : List Nat :=
  if x ∈ l then l else l ++ [x]

/-- Loop body of `get_cfilters`: emits one `getcfilters` message per batch,
pairing batches with cycled peers; a missing block aborts with
`InvalidRange` after the earlier messages were already emitted (the Rust
`?` inside the `for` loop). -/
def getCfiltersLoop (timeout : Nat) (peers : List Nat) (tree : Tree) :
    List (Nat × Nat) → Nat → List Out × Except PErr Unit
  | [], _ => ([], Except.ok ())
  | r :: rest, i =>
    match tree.getBlockByHeight (r.2 - 1) with
    | none => ([], Except.error PErr.invalidRange)
    | some stopHash =>
      let o := Out.getCfiltersMsg (cyclePeers peers i) r.1 stopHash timeout
      let (outs, res) := getCfiltersLoop timeout peers tree rest (i + 1)
      (o :: outs, res)

/-- Source `get_cfilters(range, tree)` over the inclusive range
`lo ..= hi`: empty range is a no-op, an empty peer table is
`NotConnected`; otherwise the range is split into batches of width at most
`MAX_MESSAGE_CFILTERS = 1000` by the height iterator and, if a rescan is
active, `rescan.requested` is extended with every height of the range. -/
def FilterManager.getCfilters (m : FilterManager) (lo hi : Nat) (tree : Tree) :
    FilterManager × List Out × Except PErr Unit :=
  if lo > hi then (m, [], Except.ok ())
  else if m.peers.isEmpty then (m, [], Except.error PErr.notConnected)
  else
    let batches := heightRanges lo (hi + 1) 1000
    let (outs, res) := getCfiltersLoop m.requestTimeout m.peers tree batches 0
    match res with
    | Except.error e => (m, outs, Except.error e)
    | Except.ok _ =>
      if m.rescan.active then
        let requested1 := (List.range' lo (hi + 1 - lo)).foldl insertSet m.rescan.requested
        ({ m with rescan := { m.rescan with requested := requested1 } },
          outs, Except.ok ())
      else (m, outs, Except.ok ())

/-- Source `rescan(start, end, watch, tree)`: panics if a rescan is already
active; otherwise resets the rescan state, resolves the bounds
(exclusive start becomes `start + 1`, exclusive end becomes `end - 1`),
sets `current = start.unwrap_or(tree.height() + 1)` and issues
`get_cfilters(current ..= filters.height(), tree)`. -/
def FilterManager.rescanCmd (m : FilterManager) (startB stopB : Bound) (watch : List Nat)
    (tree : Tree) : FilterManager × List Out × Except PErr Unit :=
  if m.rescan.active then (m, [], Except.error PErr.panic)
  else
    let start : Option Nat :=
      match startB with
      | Bound.unbounded => none
      | Bound.included h => some h
      | Bound.excluded h => some (h + 1)
    let stop : Option Nat :=
      match stopB with
      | Bound.unbounded => none
      | Bound.included h => some h
      | Bound.excluded h => some (h - 1)
    let current := start.getD (tree.height + 1)
    let m1 : FilterManager := { m with rescan :=
      { active := true, current := current, start := start, stop := stop,
        watch := watch, transactions := [], requested := [], received := [] } }
    m1.getCfilters current m1.filters.height tree

/-- Source `send_getcfheaders(range, tree, time)` over the half-open range
`rs .. re`: computes the stop hash (capping the request at
`MAX_MESSAGE_CFHEADERS = 2000` headers), skips duplicate in-flight
requests, then asks one sampled peer and records the request in
`inflight`.  `AddressBook::sample` (uniform-random, in `nakamoto_common`)
is modelled from the spec as an arbitrary fixed choice: the first peer. -/
def FilterManager.sendGetcfheaders (m : FilterManager) (rs re : Nat) (tree : Tree)
    (time : Nat) : FilterManager × List Out × Except PErr (Option (Nat × Nat × Nat)) :=
  let count := re - rs
  if re ≤ rs then (m, [], Except.ok none)
  else
    let stopHashOpt :=
      if count > 2000 then tree.getBlockByHeight (rs + 2000 - 1)
      else some tree.tip
    match stopHashOpt with
    | none => (m, [], Except.error PErr.panic)
    | some stopHash =>
      if (m.inflight.find? (fun p => p.1 == stopHash)).isSome then
        (m, [], Except.ok none)
      else
        match m.peers.head? with
        | some peer =>
          ({ m with inflight := (stopHash, time) :: m.inflight.eraseP (fun p => p.1 == stopHash) },
            [Out.getCfheadersMsg peer rs stopHash m.requestTimeout],
            Except.ok (some (peer, rs, stopHash)))
        | none =>
          (m, [Out.event (Event.requestCanceled "no peers with required services")],
            Except.ok none)

/-- Source `sync(tree, time)`: if the filter-header chain is behind the
block-header chain, request the missing headers over
`filters.height() + 1 .. tree.height() + 1` and emit `Syncing` when a
request was dispatched; if it is ahead, panic (fatal invariant). -/
def FilterManager.sync (m : FilterManager) (tree : Tree) (time : Nat) :
    FilterManager × List Out × Except PErr Unit :=
  let filterHeight := m.filters.height
  let blockHeight := tree.height
  if filterHeight < blockHeight then
    let startHeight := m.filters.height + 1
    let stopHeight := tree.height
    let (m1, outs, res) := m.sendGetcfheaders startHeight (stopHeight + 1) tree time
    match res with
    | Except.error e => (m1, outs, Except.error e)
    | Except.ok none => (m1, outs, Except.ok ())
    | Except.ok (some pr) =>
      (m1, outs ++ [Out.event (Event.syncing pr.1 pr.2.1 pr.2.2)], Except.ok ())
  else if filterHeight > blockHeight then
    (m, [], Except.error PErr.panic)
  else
    (m, [], Except.ok ())

/-- Source `headers_imported(start, stop, tree)`: when a rescan is active,
download the filters for the newly imported header range clipped to the
rescan window. -/
def FilterManager.headersImported (m : FilterManager) (start stop : Nat) (tree : Tree) :
    FilterManager × List Out × Except PErr Unit :=
  if !m.rescan.active then (m, [], Except.ok ())
  else
    let start1 := max start m.rescan.current
    let stop1 := min stop (m.rescan.stop.getD stop)
    m.getCfilters start1 stop1 tree

/-- Chaining loop of `received_cfheaders`: walks the filter hashes, folding
`last_header = filter_hash.filter_header(&last_header)` and collecting the
`(hash, header)` pairs to import. -/
def chainHashes (H : Nat → Nat → Nat) : Nat → List Nat → List (Nat × Nat)
  | _, [] => []
  | lastHeader, h :: rest =>
    let next := H h lastHeader
    (h, next) :: chainHashes H next rest

/-- Fold of the filter-header commitment over a list of filter hashes,
starting from a previous header; the header the chaining loop ends on. -/
def foldHeader (H : Nat → Nat → Nat) (prev : Nat) (hashes : List Nat) : Nat :=
  hashes.foldl (fun last h => H h last) prev

/-- Continuation of `received_cfheaders` after a successful
`import_headers` (the closure passed to `.map` in the source): emit
`FilterHeadersImported`, run `headers_imported` (whose error is
`.unwrap()`-ed, a panic), check the `assert!(height <= tree.height())`,
then either emit `Synced` or call `sync` again. -/
def FilterManager.postImportActions (m1 : FilterManager) (startHeight height stopHash : Nat)
    (tree : Tree) (time : Nat) : FilterManager × List Out × Except PErr Nat :=
  let ev1 := Out.event (Event.filterHeadersImported height stopHash)
  let (m2, outs2, hres) := m1.headersImported startHeight height tree
  match hres with
  | Except.error _ => (m2, ev1 :: outs2, Except.error PErr.panic)
  | Except.ok _ =>
    if height > tree.height then (m2, ev1 :: outs2, Except.error PErr.panic)
    else if height = tree.height then
      (m2, ev1 :: (outs2 ++ [Out.event (Event.synced height)]), Except.ok height)
    else
      let (m3, outs3, sres) := m2.sync tree time
      match sres with
      | Except.error _ => (m3, ev1 :: (outs2 ++ outs3), Except.error PErr.panic)
      | Except.ok _ => (m3, ev1 :: (outs2 ++ outs3), Except.ok height)

/-- Source `received_cfheaders(from, msg, tree, time)`: the nine-step
validation pipeline, then chain-and-commit via `import_headers` and the
post-import actions above. -/
def FilterManager.receivedCfheaders (E : Env) (m : FilterManager) (msg : CFHeadersMsg)
    (tree : Tree) (time : Nat) : FilterManager × List Out × Except PErr Nat :=
  let stopHash := msg.stopHash
  if (m.inflight.find? (fun p => p.1 == stopHash)).isNone then
    (m, [], Except.error (PErr.ignored "cfheaders: unsolicited message"))
  else
    let m0 : FilterManager := { m with inflight := m.inflight.eraseP (fun p => p.1 == stopHash) }
    if msg.filterType ≠ 0 then
      (m0, [], Except.error (PErr.invalidMessage "cfheaders: invalid filter type"))
    else
      let prevHeader := msg.prevHeader
      let tipHeader := m0.filters.tip.header
      if tipHeader ≠ prevHeader then (m0, [], Except.ok m0.filters.height)
      else
        let startHeight := m0.filters.height
        match tree.getBlock stopHash with
        | none => (m0, [], Except.error (PErr.invalidMessage "cfheaders: unknown stop hash"))
        | some stopHeight =>
          let hashes := msg.filterHashes
          let count := hashes.length
          if startHeight > stopHeight then
            (m0, [], Except.error
              (PErr.invalidMessage "cfheaders: start height is greater than stop height"))
          else if count > 2000 then
            (m0, [], Except.error
              (PErr.invalidMessage "cfheaders: header count exceeds maximum"))
          else if count = 0 then
            (m0, [], Except.error (PErr.invalidMessage "cfheaders: empty header list"))
          else if stopHeight - startHeight ≠ count then
            (m0, [], Except.error
              (PErr.invalidMessage "cfheaders: header count does not match height range"))
          else
            let headers := chainHashes E.H prevHeader hashes
            let (filters1, ires) := m0.filters.importHeaders headers
            let m1 : FilterManager := { m0 with filters := filters1 }
            match ires with
            | Except.error _ => (m1, [], Except.error PErr.filters)
            | Except.ok height =>
              m1.postImportActions startHeight height stopHash tree time

/-- Matching step of `process()` for one filter: scripts first (a BIP 158
decode error propagates as `none`, the Rust `?`), then transactions, where
a transaction matches iff all its output scripts match
(`match_all(..).unwrap_or(false)`, so decode errors there count as no
match). -/
def matchFilter (E : Env) (watch : List Nat) (txs : List (Nat × List Nat))
    (filter blockHash : Nat) : Option Bool :=
  match (if watch.isEmpty then some false else E.matchAny filter blockHash watch) with
  | none => none
  | some matched =>
    if !matched && !txs.isEmpty then
      some (txs.any (fun t => (E.matchAll filter blockHash t.2).getD false))
    else some matched

/-- Result of the `process()` while-loop: the remaining received map, the
final loop counter, the matched block hashes (field matchedBlocks), the emitted events, and
whether the loop completed without a BIP 158 error. -/
structure ProcOut where
  received : List (Nat × Nat × Nat)
  current : Nat
  matchedBlocks : List Nat
  outs : List Out
  ok : Bool
  deriving DecidableEq, Repr

/-- While-loop of `process()`: as long as `received` holds an entry for
`current`, remove it, match it, record the match, emit `FilterProcessed`
and advance `current`.  A BIP 158 error aborts the loop after the entry
was already removed and before its event is emitted (the Rust `?`). -/
def processGo (E : Env) (watch : List Nat) (txs : List (Nat × List Nat))
    (received : List (Nat × Nat × Nat)) (current : Nat) : ProcOut :=
  match hf : received.find? (fun p => p.1 == current) with
  | none => ⟨received, current, [], [], true⟩
  | some entry =>
    let filter := entry.2.1
    let blockHash := entry.2.2
    let received1 := received.eraseP (fun p => p.1 == current)
    match matchFilter E watch txs filter blockHash with
    | none => ⟨received1, current, [], [], false⟩
    | some matched =>
      let rest := processGo E watch txs received1 (current + 1)
      ⟨rest.received, rest.current,
        (if matched then [blockHash] else []) ++ rest.matchedBlocks,
        Out.event (Event.filterProcessed blockHash current matched) :: rest.outs,
        rest.ok⟩
termination_by received.length
decreasing_by
  have hm := List.mem_of_find?_eq_some hf
  have hp := List.find?_some hf
  have hlen := @List.length_eraseP_add_one _ (fun p => p.1 == current) received entry hm hp
  omega

/-- Source `process()`: run the while-loop; on success commit the new
`current` and check for rescan completion, on a BIP 158 error leave
`current` uncommitted (the removals from `received` and the events already
emitted persist). -/
def processRescan (E : Env) (r : Rescan) : Rescan × List Out × Except Unit (List Nat) :=
  let po := processGo E r.watch r.transactions r.received r.current
  if po.ok then
    let r1 : Rescan := { r with received := po.received, current := po.current }
    match r1.stop with
    | some stop =>
      if r1.current = stop then
        ({ r1 with active := false }, po.outs ++ [Out.event (Event.rescanCompleted stop)],
          Except.ok po.matchedBlocks)
      else (r1, po.outs, Except.ok po.matchedBlocks)
    | none => (r1, po.outs, Except.ok po.matchedBlocks)
  else ({ r with received := po.received }, po.outs, Except.error ())

/-- Source `received_cfilter(from, msg, tree)`: filter type and block
lookups, the commitment check against the stored filter header, the
`FilterReceived` event, and — when a rescan is active and the height was
requested — queueing the filter and running `process()` (whose BIP 158
error is swallowed, returning an empty match list). -/
def FilterManager.receivedCfilter (E : Env) (m : FilterManager) (fromPeer : Nat)
    (msg : CFilterMsg) (tree : Tree) : FilterManager × List Out × Except PErr (List Nat) :=
  if msg.filterType ≠ 0 then (m, [], Except.error (PErr.ignored "cfilter"))
  else
    match tree.getBlock msg.blockHash with
    | none => (m, [], Except.error (PErr.ignored "cfilter"))
    | some height =>
      match m.filters.getHeader height with
      | none => (m, [], Except.error (PErr.ignored "cfilter"))
      | some hdr =>
        let header := hdr.2
        match m.filters.getPrevHeader height with
        | none => (m, [], Except.error PErr.panic)
        | some prevHeader =>
          let filter := msg.filter
          let blockHash := msg.blockHash
          if E.H (E.filterHash filter) prevHeader ≠ header then
            (m, [], Except.error
              (PErr.invalidMessage "cfilter: filter hash doesn\x27t match header"))
          else
            let ev := Out.event (Event.filterReceived fromPeer filter height blockHash)
            if m.rescan.active = true ∧ height ∈ m.rescan.requested then
              let r1 : Rescan := { m.rescan with
                requested := m.rescan.requested.erase height,
                received := (height, filter, blockHash) ::
                  m.rescan.received.eraseP (fun p => p.1 == height) }
              let pr := processRescan E r1
              let m1 : FilterManager := { m with rescan := pr.1 }
              match pr.2.2 with
              | Except.ok ms => (m1, ev :: pr.2.1, Except.ok ms)
              | Except.error _ => (m1, ev :: pr.2.1, Except.ok [])
            else (m, [ev], Except.ok [])

/-- Check that a list of `(hash, header)` pairs chains onto a previous
header: each header equals `H(hash || previous header)`.  This is the
shape of every sequence the manager hands to `import_headers` (spec
section 4.B). -/
def chainedB (H : Nat → Nat → Nat) : Nat → List (Nat × Nat) → Bool
  | _, [] => true
  | prev, p :: rest => (p.2 == H p.1 prev) && chainedB H p.2 rest

/-- Cache states reachable from the genesis-only cache by `import_headers`
calls whose argument chains onto the current tip and by `rollback(n)`
calls with `n <= height` (the contract of spec section 4.B). -/
inductive Reach (H : Nat → Nat → Nat) (g : StoredHeader) : FilterCache → Prop
  | genesis : Reach H g ⟨g, [], [g], true⟩
  | importStep (c : FilterCache) (hs : List (Nat × Nat)) :
      Reach H g c → chainedB H c.tip.header hs = true →
      Reach H g (c.importHeaders hs).1
  | rollbackStep (c : FilterCache) (n : Nat) :
      Reach H g c → n ≤ c.height →
      Reach H g (c.rollback n).1

/-- Lookup in the association-list model of the `received` HashMap. -/
def lookupRecv (l : List (Nat × Nat × Nat)) (h : Nat) : Option (Nat × Nat) :=
  (l.find? (fun p => p.1 == h)).map (fun p => p.2)

/-- Keys of the association-list model of the `received` HashMap. -/
def recvKeys (l : List (Nat × Nat × Nat)) : List Nat :=
  l.map (fun p => p.1)

/-- Fold of `received_cfilter` over a list of heights, delivering for each
height `h` a `cfilter` message with block hash `bh h` and filter contents
`filt h`, concatenating all emitted outputs in order. -/
def deliverAll (E : Env) (fromPeer : Nat) (tree : Tree) (filt bh : Nat → Nat) :
    FilterManager → List Nat → FilterManager × List Out
  | m, [] => (m, [])
  | m, h :: hs =>
    let r := m.receivedCfilter E fromPeer ⟨0, bh h, filt h⟩ tree
    let rest := deliverAll E fromPeer tree filt bh r.1 hs
    (rest.1, r.2.1 ++ rest.2)

/-- Heights of the `FilterProcessed` events in an output stream, in
emission order. -/
def processedHeights (outs : List Out) : List Nat :=
  outs.filterMap (fun o =>
    match o with
    | Out.event (Event.filterProcessed _ h _) => some h
    | _ => none)

/-- Invariant of the out-of-order delivery argument for a rescan over
`[a, b]` whose end bound, if any, lies outside `[a, b]`: after some set
`D` of heights has been delivered, `current` sits at the first gap `c`,
everything below `c` was delivered, the requested set holds exactly the
undelivered heights of `[a, b]`, and the received map holds exactly the
delivered heights at or above `c` with their filters.  The rescan stays
active except possibly once the cursor has crossed the whole window
(`c = b + 1`, when an end bound of exactly `b + 1` completes it). -/
structure DeliveryInv (E : Env) (m0 : FilterManager) (a b : Nat) (filt bh : Nat → Nat)
    (D : List Nat) (m : FilterManager) (c : Nat) : Prop where
  activeOr : m.rescan.active = true ∨ c = b + 1
  stopSafe : ∀ s, m.rescan.stop = some s → (s < a ∨ b < s)
  watchEq : m.rescan.watch = m0.rescan.watch
  txsEq : m.rescan.transactions = m0.rescan.transactions
  filtersEq : m.filters = m0.filters
  currentEq : m.rescan.current = c
  lowerC : a ≤ c
  upperC : c ≤ b + 1
  processedMem : ∀ j, a ≤ j → j < c → j ∈ D
  cNotD : c ∉ D
  DRange : ∀ j, j ∈ D → a ≤ j ∧ j ≤ b
  DNodup : D.Nodup
  reqMem : ∀ j, j ∈ m.rescan.requested ↔ (a ≤ j ∧ j ≤ b ∧ j ∉ D)
  reqNodup : m.rescan.requested.Nodup
  recvNodup : (recvKeys m.rescan.received).Nodup
  recvLook : ∀ j, lookupRecv m.rescan.received j
    = if j ∈ D ∧ c ≤ j then some (filt j, bh j) else none

/-- Concrete environment used to instantiate the abstract hash and match
functions in witnesses: a simple commitment function and match queries
that always decode. -/
def cEnv : Env :=
  ⟨fun h p => 2 * h + 3 * p + 1, fun f => f + 1,
    fun _ _ _ => some false, fun _ _ _ => some false⟩

/-- Concrete genesis record for witnesses, chained from the zero header. -/
def cGen : StoredHeader := ⟨7, cEnv.H 7 0⟩

/-- Empty, inactive rescan state (the manager's initial `Rescan::default()`). -/
def cRescan0 : Rescan := ⟨false, 0, none, none, [], [], [], []⟩

/-- Genesis-only cache for witnesses, with an in-sync working store. -/
def cCache0 : FilterCache := ⟨cGen, [], [cGen], true⟩

/-- Two-block tree for witnesses: genesis hash 100, block 1 hash 101. -/
def cTree1 : Tree := ⟨[100, 101]⟩

/-- Manager for witnesses: one peer, genesis-only cache, one in-flight
`getcfheaders` request with stop hash 101. -/
def cMgr1 : FilterManager := ⟨30, [9], cRescan0, cCache0, [(101, 5)]⟩

/-- Thousand-block tree (block hash at height h is h) for the wide-range
counterexamples. -/
def cTreeBig : Tree := ⟨List.range 1000⟩

/-- Manager whose filter-header chain is caught up with `cTreeBig`
(height 999); record contents are irrelevant to the batching behaviour. -/
def cMgrBig : FilterManager :=
  ⟨30, [9], cRescan0, ⟨cGen, List.replicate 999 ⟨0, 0⟩, [], true⟩, []⟩

end Nakamoto

namespace Nakamoto

/-! Helper lemmas about the embedded operations. -/

theorem verifyChain_append (H : Nat → Nat → Nat) (l₁ l₂ : List StoredHeader) (p : Nat) :
    verifyChain H p (l₁ ++ l₂)
      = (verifyChain H p l₁ && verifyChain H (((l₁.getLast?).map StoredHeader.header).getD p) l₂) := by
  induction l₁ generalizing p with
  | nil => simp [verifyChain]
  | cons s rest ih =>
    simp only [List.cons_append, verifyChain, List.append_eq]
    rw [ih s.header]
    cases hrest : rest.getLast? with
    | none => simp [hrest, List.getLast?_cons, Bool.and_assoc]
    | some x => simp [hrest, List.getLast?_cons, Bool.and_assoc]

theorem verifyChain_take (H : Nat → Nat → Nat) (l : List StoredHeader) (p k : Nat)
    (h : verifyChain H p l = true) : verifyChain H p (l.take k) = true := by
  induction l generalizing p k with
  | nil => simp [verifyChain]
  | cons s rest ih =>
    cases k with
    | zero => simp [verifyChain]
    | succ k =>
      simp only [verifyChain, Bool.and_eq_true] at h
      simp only [List.take_succ_cons, verifyChain, Bool.and_eq_true]
      exact ⟨h.1, ih _ _ h.2⟩

theorem chainedB_eq_verifyChain (H : Nat → Nat → Nat) (hs : List (Nat × Nat)) (prev : Nat) :
    chainedB H prev hs = verifyChain H prev (hs.map (fun p => StoredHeader.mk p.1 p.2)) := by
  induction hs generalizing prev with
  | nil => rfl
  | cons p rest ih => simp [chainedB, verifyChain, ih]

theorem headers_getLast?_eq_tip (c : FilterCache) :
    c.headers.getLast? = some c.tip := by
  simp [FilterCache.headers, FilterCache.tip, List.getLast?_cons]

end Nakamoto

namespace Nakamoto

/-! Claim theorems. -/

/-- C8: the height-batching iterator with start = 3, stop = 19, step = 5
yields exactly the half-open ranges 3..7, 8..12, 13..17, 18..19 and then
terminates; the ranges are exhaustive over [3, 19) except for the
off-by-one batch-join heights 7, 12, 17, and each subsequent range starts
exactly one past the previous range's stop. -/
theorem c8_height_iterator :
    heightRanges 3 19 5 = [(3, 7), (8, 12), (13, 17), (18, 19)] ∧
    (List.range' 3 16).filter
        (fun h => !(heightRanges 3 19 5).any (fun r => decide (r.1 ≤ h ∧ h < r.2)))
      = [7, 12, 17] ∧
    ((heightRanges 3 19 5).zip (heightRanges 3 19 5).tail).all
        (fun pr => pr.2.1 == pr.1.2 + 1) = true := by
  decide

/-- C10: `import_headers` extends the in-memory sequence before writing to
the store, so when the store `put` fails the call returns an error while
the in-memory chain has already grown by the imported headers and the
store is unchanged — memory and store diverge on the error path. -/
theorem c10_import_headers_not_atomic (c : FilterCache) (hs : List (Nat × Nat))
    (hfail : c.storeOk = false) :
    (c.importHeaders hs).2 = Except.error () ∧
    (c.importHeaders hs).1.tail = c.tail ++ hs.map (fun p => StoredHeader.mk p.1 p.2) ∧
    (c.importHeaders hs).1.height = c.height + hs.length ∧
    (c.importHeaders hs).1.store = c.store := by
  simp [FilterCache.importHeaders, hfail, FilterCache.height]

/-- Witness for C10 at a concrete broken-store cache. -/
theorem c10_witness :
    ((⟨cGen, [], [cGen], false⟩ : FilterCache).importHeaders [(4, 9)]).2 = Except.error () ∧
    ((⟨cGen, [], [cGen], false⟩ : FilterCache).importHeaders [(4, 9)]).1.height = 1 :=
  ⟨(c10_import_headers_not_atomic ⟨cGen, [], [cGen], false⟩ [(4, 9)] rfl).1,
   (c10_import_headers_not_atomic ⟨cGen, [], [cGen], false⟩ [(4, 9)] rfl).2.2.1⟩

/-- Counterexample to C5 as stated: with the stop hash in flight and a bad
filter type, `received_cfheaders` fails with `InvalidMessage` but the
inflight table HAS been mutated (the entry for the stop hash was removed
before the filter-type check), so not every validation failure leaves the
inflight table unchanged. -/
theorem c5_counterexample :
    (cMgr1.receivedCfheaders cEnv ⟨1, 101, cGen.header, [4]⟩ cTree1 0).2.2
      = Except.error (PErr.invalidMessage "cfheaders: invalid filter type") ∧
    (cMgr1.receivedCfheaders cEnv ⟨1, 101, cGen.header, [4]⟩ cTree1 0).1.inflight = [] ∧
    cMgr1.inflight = [(101, 5)] :=
  ⟨rfl, rfl, rfl⟩

/-- C5 (amended): every validation failure of `received_cfheaders` returns
exactly the listed error and mutates neither the cache nor the rescan
state nor the peer table, and emits nothing; the unsolicited failure
leaves the whole manager (inflight included) unchanged, while the six
later failures happen after the in-flight entry for the stop hash has
been consumed, so the final state is the original manager with exactly
that inflight entry erased. -/
theorem c5_validation_failures (E : Env) (m : FilterManager) (msg : CFHeadersMsg)
    (tree : Tree) (time : Nat) :
    (m.inflight.find? (fun p => p.1 == msg.stopHash) = none →
      m.receivedCfheaders E msg tree time
        = (m, [], Except.error (PErr.ignored "cfheaders: unsolicited message"))) ∧
    (∀ ent, m.inflight.find? (fun p => p.1 == msg.stopHash) = some ent →
      (msg.filterType ≠ 0 →
        m.receivedCfheaders E msg tree time
          = ({ m with inflight := m.inflight.eraseP (fun p => p.1 == msg.stopHash) }, [],
              Except.error (PErr.invalidMessage "cfheaders: invalid filter type"))) ∧
      (msg.filterType = 0 → m.filters.tip.header = msg.prevHeader →
        (tree.getBlock msg.stopHash = none →
          m.receivedCfheaders E msg tree time
            = ({ m with inflight := m.inflight.eraseP (fun p => p.1 == msg.stopHash) }, [],
                Except.error (PErr.invalidMessage "cfheaders: unknown stop hash"))) ∧
        (∀ sh, tree.getBlock msg.stopHash = some sh →
          (m.filters.height > sh →
            m.receivedCfheaders E msg tree time
              = ({ m with inflight := m.inflight.eraseP (fun p => p.1 == msg.stopHash) }, [],
                  Except.error (PErr.invalidMessage
                    "cfheaders: start height is greater than stop height"))) ∧
          (m.filters.height ≤ sh →
            (msg.filterHashes.length > 2000 →
              m.receivedCfheaders E msg tree time
                = ({ m with inflight := m.inflight.eraseP (fun p => p.1 == msg.stopHash) }, [],
                    Except.error (PErr.invalidMessage
                      "cfheaders: header count exceeds maximum"))) ∧
            (msg.filterHashes.length ≤ 2000 → msg.filterHashes = [] →
              m.receivedCfheaders E msg tree time
                = ({ m with inflight := m.inflight.eraseP (fun p => p.1 == msg.stopHash) }, [],
                    Except.error (PErr.invalidMessage "cfheaders: empty header list"))) ∧
            (msg.filterHashes.length ≤ 2000 → msg.filterHashes ≠ [] →
              sh - m.filters.height ≠ msg.filterHashes.length →
              m.receivedCfheaders E msg tree time
                = ({ m with inflight := m.inflight.eraseP (fun p => p.1 == msg.stopHash) }, [],
                    Except.error (PErr.invalidMessage
                      "cfheaders: header count does not match height range"))))))) := by
  constructor
  · intro h1
    simp [FilterManager.receivedCfheaders, h1]
  · intro ent hent
    have hsome : (m.inflight.find? (fun p => p.1 == msg.stopHash)).isNone = false := by
      simp [hent]
    refine ⟨?_, ?_⟩
    · intro hft
      simp [FilterManager.receivedCfheaders, hsome, hft]
    · intro hft htip
      refine ⟨?_, ?_⟩
      · intro hblk
        simp [FilterManager.receivedCfheaders, hsome, hft, htip, hblk]
      · intro sh hblk
        refine ⟨?_, ?_⟩
        · intro hgt
          simp [FilterManager.receivedCfheaders, hsome, hft, htip, hblk,
            Nat.not_le.mpr hgt, hgt]
        · intro hle
          refine ⟨?_, ?_, ?_⟩
          · intro hcnt
            simp [FilterManager.receivedCfheaders, hsome, hft, htip, hblk,
              Nat.not_lt.mpr hle, hcnt]
          · intro hcnt hnil
            simp [FilterManager.receivedCfheaders, hsome, hft, htip, hblk,
              Nat.not_lt.mpr hle, Nat.not_lt.mpr hcnt, hnil]
          · intro hcnt hnil hmis
            simp [FilterManager.receivedCfheaders, hsome, hft, htip, hblk,
              Nat.not_lt.mpr hle, Nat.not_lt.mpr hcnt, hnil, hmis]

/-- Witness for C5 (amended): the unsolicited branch at a concrete manager
whose inflight table does not hold the stop hash. -/
theorem c5_validation_failures_witness :
    cMgr1.receivedCfheaders cEnv ⟨0, 77, cGen.header, [4]⟩ cTree1 0
      = (cMgr1, [], Except.error (PErr.ignored "cfheaders: unsolicited message")) :=
  (c5_validation_failures cEnv cMgr1 ⟨0, 77, cGen.header, [4]⟩ cTree1 0).1 (by decide)

/-- C6: `sync` with filter height F and block height B: when F = B it is a
no-op; when F > B it panics (fatal invariant, refusing to continue); when
F < B it calls `send_getcfheaders` for the half-open range F+1 .. B+1 —
when a peer is available and the request is not already in flight the
request is dispatched and `Syncing` is emitted, and when no peer is
available only `RequestCanceled` is emitted. -/
theorem c6_sync (m : FilterManager) (tree : Tree) (time : Nat) :
    (m.filters.height = tree.height → m.sync tree time = (m, [], Except.ok ())) ∧
    (m.filters.height > tree.height → m.sync tree time = (m, [], Except.error PErr.panic)) ∧
    (m.filters.height < tree.height → tree.height - m.filters.height ≤ 2000 →
      m.inflight.find? (fun p => p.1 == tree.tip) = none →
      (∀ peer rest, m.peers = peer :: rest →
        m.sync tree time
          = ({ m with inflight := (tree.tip, time) :: m.inflight.eraseP (fun p => p.1 == tree.tip) },
              [Out.getCfheadersMsg peer (m.filters.height + 1) tree.tip m.requestTimeout,
               Out.event (Event.syncing peer (m.filters.height + 1) tree.tip)],
              Except.ok ())) ∧
      (m.peers = [] →
        m.sync tree time
          = (m, [Out.event (Event.requestCanceled "no peers with required services")],
              Except.ok ()))) := by
  refine ⟨?_, ?_, ?_⟩
  · intro heq
    simp [FilterManager.sync, heq]
  · intro hgt
    simp [FilterManager.sync, Nat.lt_irrefl, Nat.not_lt.mpr (Nat.le_of_lt hgt), hgt]
  · intro hlt hcap hfl
    have hcnt : ¬ (2000 < tree.height - m.filters.height) := by omega
    have hne : ¬ (tree.height + 1 ≤ m.filters.height + 1) := by omega
    constructor
    · intro peer rest hpeers
      simp [FilterManager.sync, FilterManager.sendGetcfheaders, hlt, hcnt, hne, hfl, hpeers]
    · intro hpeers
      simp [FilterManager.sync, FilterManager.sendGetcfheaders, hlt, hcnt, hne, hfl, hpeers]

/-- Witness for C6: the no-op branch at a concrete caught-up manager. -/
theorem c6_sync_witness :
    FilterManager.sync ⟨30, [9], cRescan0, ⟨cGen, [⟨4, 54⟩], [cGen, ⟨4, 54⟩], true⟩, []⟩ cTree1 0
      = (⟨30, [9], cRescan0, ⟨cGen, [⟨4, 54⟩], [cGen, ⟨4, 54⟩], true⟩, []⟩, [], Except.ok ()) :=
  (c6_sync ⟨30, [9], cRescan0, ⟨cGen, [⟨4, 54⟩], [cGen, ⟨4, 54⟩], true⟩, []⟩ cTree1 0).1 rfl

/-- C2: a `cfilter` message for a known block at a height with a committed
filter header, whose filter does not hash-chain to the committed header,
makes `received_cfilter` return
`InvalidMessage("cfilter: filter hash doesn\x27t match header")` with the
manager completely unchanged (no event is emitted; `rescan.received` and
`rescan.requested` are untouched). -/
theorem c2_forged_filter (E : Env) (m : FilterManager) (fromPeer : Nat) (msg : CFilterMsg)
    (tree : Tree) (height : Nat) (hdr : Nat × Nat) (prev : Nat)
    (hft : msg.filterType = 0)
    (hblk : tree.getBlock msg.blockHash = some height)
    (hhdr : m.filters.getHeader height = some hdr)
    (hprev : m.filters.getPrevHeader height = some prev)
    (hmis : E.H (E.filterHash msg.filter) prev ≠ hdr.2) :
    m.receivedCfilter E fromPeer msg tree
      = (m, [], Except.error (PErr.invalidMessage "cfilter: filter hash doesn\x27t match header")) := by
  simp [FilterManager.receivedCfilter, hft, hblk, hhdr, hprev, hmis]

/-- Witness for C2: a forged filter for height 1 against a two-record
cache. -/
theorem c2_forged_filter_witness :
    FilterManager.receivedCfilter cEnv
        ⟨30, [9], cRescan0, ⟨cGen, [⟨4, 54⟩], [cGen, ⟨4, 54⟩], true⟩, []⟩ 9 ⟨0, 101, 99⟩ cTree1
      = (⟨30, [9], cRescan0, ⟨cGen, [⟨4, 54⟩], [cGen, ⟨4, 54⟩], true⟩, []⟩, [],
          Except.error (PErr.invalidMessage "cfilter: filter hash doesn\x27t match header")) :=
  c2_forged_filter cEnv ⟨30, [9], cRescan0, ⟨cGen, [⟨4, 54⟩], [cGen, ⟨4, 54⟩], true⟩, []⟩
    9 ⟨0, 101, 99⟩ cTree1 1 (4, 54) 15 rfl (by decide) (by decide) (by decide) (by decide)

/-- Length of the chained header list equals the number of hashes. -/
theorem chainHashes_length (H : Nat → Nat → Nat) (prev : Nat) (hashes : List Nat) :
    (chainHashes H prev hashes).length = hashes.length := by
  induction hashes generalizing prev with
  | nil => rfl
  | cons a rest ih => simp [chainHashes, ih]

/-- The last chained pair carries the last hash and the full fold of the
commitment over all hashes. -/
theorem chainHashes_getLast? (H : Nat → Nat → Nat) (prev : Nat) (hashes : List Nat) :
    (chainHashes H prev hashes).getLast?
      = hashes.getLast?.map (fun x => (x, foldHeader H prev hashes)) := by
  induction hashes generalizing prev with
  | nil => rfl
  | cons a rest ih =>
    simp only [chainHashes, List.getLast?_cons, ih (H a prev)]
    cases hrest : rest.getLast? with
    | none =>
      have hnil : rest = [] := List.getLast?_eq_none_iff.mp hrest
      subst hnil
      simp [foldHeader]
    | some x =>
      simp [foldHeader]

theorem getCfilters_preserves_filters (m : FilterManager) (lo hi : Nat) (tree : Tree) :
    (m.getCfilters lo hi tree).1.filters = m.filters := by
  unfold FilterManager.getCfilters
  split
  · rfl
  split
  · rfl
  rcases hl : getCfiltersLoop m.requestTimeout m.peers tree (heightRanges lo (hi + 1) 1000) 0
    with ⟨outs, res⟩
  simp only [hl]
  cases res with
  | error e => rfl
  | ok u =>
    cases hact : m.rescan.active with
    | false => simp [hact]
    | true => simp [hact]

theorem headersImported_preserves_filters (m : FilterManager) (start stop : Nat) (tree : Tree) :
    (m.headersImported start stop tree).1.filters = m.filters := by
  unfold FilterManager.headersImported
  split
  · rfl
  · exact getCfilters_preserves_filters m _ _ tree

theorem sendGetcfheaders_preserves_filters (m : FilterManager) (rs re : Nat) (tree : Tree)
    (time : Nat) : (m.sendGetcfheaders rs re tree time).1.filters = m.filters := by
  unfold FilterManager.sendGetcfheaders
  by_cases h1 : re ≤ rs
  · simp [h1]
  · by_cases hc : re - rs > 2000
    · cases hb : tree.getBlockByHeight (rs + 2000 - 1) with
      | none => simp [h1, hc, hb]
      | some sh =>
        by_cases hf2 : (List.find? (fun p => p.1 == sh) m.inflight).isSome = true
        · simp [h1, hc, hb, hf2]
        · cases hp : m.peers.head? with
          | none => simp [h1, hc, hb, hf2, hp]
          | some peer => simp [h1, hc, hb, hf2, hp]
    · by_cases hf2 : (List.find? (fun p => p.1 == tree.tip) m.inflight).isSome = true
      · simp [h1, hc, hf2]
      · cases hp : m.peers.head? with
        | none => simp [h1, hc, hf2, hp]
        | some peer => simp [h1, hc, hf2, hp]

theorem sync_preserves_filters (m : FilterManager) (tree : Tree) (time : Nat) :
    (m.sync tree time).1.filters = m.filters := by
  unfold FilterManager.sync
  by_cases hlt : m.filters.height < tree.height
  · rcases hs : m.sendGetcfheaders (m.filters.height + 1) (tree.height + 1) tree time
      with ⟨m1, outs, res⟩
    have h1 : m1.filters = m.filters := by
      have h2 := sendGetcfheaders_preserves_filters m (m.filters.height + 1) (tree.height + 1)
        tree time
      rw [hs] at h2
      exact h2
    cases res with
    | error e => simp [hlt, hs, h1]
    | ok v => cases v <;> simp [hlt, hs, h1]
  · by_cases hgt : m.filters.height > tree.height
    · simp [hlt, hgt]
    · simp [hlt, hgt]

/-- Reading the freshly appended cache at its new tip height yields the
last appended record. -/
theorem getHeader_append_last (c : FilterCache) (stored store2 : List StoredHeader)
    (hne : stored ≠ []) :
    (FilterCache.mk c.headHeader (c.tail ++ stored) store2 c.storeOk).getHeader
        (c.height + stored.length)
      = stored.getLast?.map (fun s => (s.hash, s.header)) := by
  unfold FilterCache.getHeader FilterCache.headers FilterCache.height
  rw [show c.tail.length + stored.length
      = (c.headHeader :: (c.tail ++ stored)).length - 1 by simp]
  rw [← List.getLast?_eq_getElem?]
  rw [List.getLast?_cons, List.getLast?_append]
  cases hs : stored.getLast? with
  | none => exact absurd (List.getLast?_eq_none_iff.mp hs) hne
  | some x => simp

/-- The post-import actions never touch the filter cache and produce
either the imported height or a panic. -/
theorem postImportActions_spec (m1 : FilterManager) (s h stopHash : Nat) (tree : Tree)
    (time : Nat) :
    (m1.postImportActions s h stopHash tree time).1.filters = m1.filters ∧
    ((m1.postImportActions s h stopHash tree time).2.2 = Except.ok h ∨
     (m1.postImportActions s h stopHash tree time).2.2 = Except.error PErr.panic) := by
  unfold FilterManager.postImportActions
  rcases hh : m1.headersImported s h tree with ⟨m2, outs2, hres⟩
  have hm2 : m2.filters = m1.filters := by
    have h0 := headersImported_preserves_filters m1 s h tree
    rw [hh] at h0
    exact h0
  cases hres with
  | error e => simp [hh, hm2]
  | ok u =>
    by_cases h1 : h > tree.height
    · simp [hh, h1, hm2]
    · by_cases h2 : h = tree.height
      · simp [hh, h1, h2, hm2]
      · rcases hs : m2.sync tree time with ⟨m3, outs3, sres⟩
        have hm3 : m3.filters = m1.filters := by
          have h0 := sync_preserves_filters m2 tree time
          rw [hs] at h0
          rw [h0, hm2]
        cases sres with
        | error e => simp [hh, h1, h2, hs, hm3]
        | ok u2 => simp [hh, h1, h2, hs, hm3]

/-- C1: an accepted `cfheaders` message (all nine validation steps pass,
with a working in-sync store) makes the manager fold
`last = H(hash || last)` over `msg.filter_hashes` starting from
`msg.previous_filter_header` and import the resulting `(hash, header)`
pairs: afterwards the cache height is the stop height, the cache record at
the stop height is the last filter hash paired with exactly that fold,
and the call returns the new cache height (unless a later step panics, in
which case no value is returned at all). -/
theorem c1_cfheaders_chain_commitment (E : Env) (m : FilterManager) (msg : CFHeadersMsg)
    (tree : Tree) (time : Nat) (ent : Nat × Nat) (sh : Nat)
    (hin : m.inflight.find? (fun p => p.1 == msg.stopHash) = some ent)
    (hft : msg.filterType = 0)
    (htip : m.filters.tip.header = msg.prevHeader)
    (hblk : tree.getBlock msg.stopHash = some sh)
    (hle : m.filters.height ≤ sh)
    (hcnt : msg.filterHashes.length ≤ 2000)
    (hnil : msg.filterHashes ≠ [])
    (hrange : sh - m.filters.height = msg.filterHashes.length)
    (hstore : m.filters.storeOk = true)
    (hsyncd : m.filters.store.length = m.filters.tail.length + 1) :
    (m.receivedCfheaders E msg tree time).1.filters.height = sh ∧
    (m.receivedCfheaders E msg tree time).1.filters.getHeader sh
      = msg.filterHashes.getLast?.map
          (fun x => (x, foldHeader E.H msg.prevHeader msg.filterHashes)) ∧
    ((m.receivedCfheaders E msg tree time).2.2 = Except.ok sh ∨
     (m.receivedCfheaders E msg tree time).2.2 = Except.error PErr.panic) := by
  have hsome : (m.inflight.find? (fun p => p.1 == msg.stopHash)).isNone = false := by
    simp [hin]
  have hheight : m.filters.height = m.filters.tail.length := rfl
  have hsh2 : sh = m.filters.tail.length + msg.filterHashes.length := by
    rw [hheight] at hle hrange
    omega
  have hngt : ¬ (m.filters.height > sh) := by omega
  have hncnt : ¬ (msg.filterHashes.length > 2000) := by omega
  have hn0 : ¬ (msg.filterHashes.length = 0) := fun h0 => hnil (List.length_eq_zero.mp h0)
  have hdiff : ¬ (sh - m.filters.height ≠ msg.filterHashes.length) := by simp [hrange]
  have hstl : ((chainHashes E.H msg.prevHeader msg.filterHashes).map
      (fun p => StoredHeader.mk p.1 p.2)).length = msg.filterHashes.length := by
    rw [List.length_map, chainHashes_length]
  have hne2 : (chainHashes E.H msg.prevHeader msg.filterHashes).map
      (fun p => StoredHeader.mk p.1 p.2) ≠ [] := by
    intro h0
    apply hn0
    have := congrArg List.length h0
    rw [hstl] at this
    simpa using this
  have himp : m.filters.importHeaders (chainHashes E.H msg.prevHeader msg.filterHashes)
      = (FilterCache.mk m.filters.headHeader
          (m.filters.tail ++ (chainHashes E.H msg.prevHeader msg.filterHashes).map
            (fun p => StoredHeader.mk p.1 p.2))
          (m.filters.store ++ (chainHashes E.H msg.prevHeader msg.filterHashes).map
            (fun p => StoredHeader.mk p.1 p.2))
          m.filters.storeOk, Except.ok sh) := by
    have hlen : (m.filters.store ++ (chainHashes E.H msg.prevHeader msg.filterHashes).map
        (fun p => StoredHeader.mk p.1 p.2)).length - 1 = sh := by
      rw [List.length_append, hsyncd, hstl]
      omega
    unfold FilterCache.importHeaders
    rw [if_pos hstore]
    simp
    rw [hsyncd, chainHashes_length]
    omega
  have hF1h : (FilterCache.mk m.filters.headHeader
      (m.filters.tail ++ (chainHashes E.H msg.prevHeader msg.filterHashes).map
        (fun p => StoredHeader.mk p.1 p.2))
      (m.filters.store ++ (chainHashes E.H msg.prevHeader msg.filterHashes).map
        (fun p => StoredHeader.mk p.1 p.2))
      m.filters.storeOk).height = sh := by
    unfold FilterCache.height
    rw [List.length_append, hstl]
    omega
  have hF1g : (FilterCache.mk m.filters.headHeader
      (m.filters.tail ++ (chainHashes E.H msg.prevHeader msg.filterHashes).map
        (fun p => StoredHeader.mk p.1 p.2))
      (m.filters.store ++ (chainHashes E.H msg.prevHeader msg.filterHashes).map
        (fun p => StoredHeader.mk p.1 p.2))
      m.filters.storeOk).getHeader sh
      = msg.filterHashes.getLast?.map
          (fun x => (x, foldHeader E.H msg.prevHeader msg.filterHashes)) := by
    have hgl := getHeader_append_last m.filters
      ((chainHashes E.H msg.prevHeader msg.filterHashes).map (fun p => StoredHeader.mk p.1 p.2))
      (m.filters.store ++ (chainHashes E.H msg.prevHeader msg.filterHashes).map
        (fun p => StoredHeader.mk p.1 p.2))
      hne2
    rw [hheight, hstl] at hgl
    rw [← hsh2] at hgl
    rw [hgl]
    rw [List.getLast?_map, chainHashes_getLast?]
    cases msg.filterHashes.getLast? with
    | none => rfl
    | some x => rfl
  have hkey : ∀ (m1 : FilterManager),
      m1.filters = FilterCache.mk m.filters.headHeader
        (m.filters.tail ++ (chainHashes E.H msg.prevHeader msg.filterHashes).map
          (fun p => StoredHeader.mk p.1 p.2))
        (m.filters.store ++ (chainHashes E.H msg.prevHeader msg.filterHashes).map
          (fun p => StoredHeader.mk p.1 p.2))
        m.filters.storeOk →
      (m1.postImportActions m.filters.height sh msg.stopHash tree time).1.filters.height = sh ∧
      (m1.postImportActions m.filters.height sh msg.stopHash tree time).1.filters.getHeader sh
        = msg.filterHashes.getLast?.map
            (fun x => (x, foldHeader E.H msg.prevHeader msg.filterHashes)) ∧
      ((m1.postImportActions m.filters.height sh msg.stopHash tree time).2.2 = Except.ok sh ∨
       (m1.postImportActions m.filters.height sh msg.stopHash tree time).2.2
         = Except.error PErr.panic) := by
    intro m1 hm1
    obtain ⟨hA, hB⟩ := postImportActions_spec m1 m.filters.height sh msg.stopHash tree time
    rw [hA, hm1]
    exact ⟨hF1h, hF1g, hB⟩
  unfold FilterManager.receivedCfheaders
  simp only [hsome, Bool.false_eq_true, if_false, hft, htip, hblk, ne_eq,
    not_true_eq_false, not_false_eq_true, if_true, if_neg, hngt, hncnt, hn0, hdiff]
  rw [himp]
  exact hkey _ rfl

/-- Witness for C1: importing one filter hash on top of the genesis-only
cache; the imported record at height 1 is the hash paired with the fold
and the call returns the new height 1. -/
theorem c1_witness :
    (cMgr1.receivedCfheaders cEnv ⟨0, 101, cGen.header, [4]⟩ cTree1 5).1.filters.height = 1 ∧
    (cMgr1.receivedCfheaders cEnv ⟨0, 101, cGen.header, [4]⟩ cTree1 5).1.filters.getHeader 1
      = some (4, 54) ∧
    ((cMgr1.receivedCfheaders cEnv ⟨0, 101, cGen.header, [4]⟩ cTree1 5).2.2 = Except.ok 1 ∨
     (cMgr1.receivedCfheaders cEnv ⟨0, 101, cGen.header, [4]⟩ cTree1 5).2.2
       = Except.error PErr.panic) := by
  have h := c1_cfheaders_chain_commitment cEnv cMgr1 ⟨0, 101, cGen.header, [4]⟩ cTree1 5
    (101, 5) 1 (by decide) rfl (by decide) (by decide) (by decide) (by decide) (by decide)
    (by decide) rfl rfl
  refine ⟨h.1, ?_, h.2.2⟩
  rw [h.2.1]
  rfl

theorem importHeaders_fst (c : FilterCache) (hs : List (Nat × Nat)) (h : c.storeOk = true) :
    (c.importHeaders hs).1
      = ⟨c.headHeader, c.tail ++ hs.map (fun p => StoredHeader.mk p.1 p.2),
          c.store ++ hs.map (fun p => StoredHeader.mk p.1 p.2), c.storeOk⟩ := by
  unfold FilterCache.importHeaders
  rw [if_pos h]

theorem rollback_fst (c : FilterCache) (n : Nat) (h : c.storeOk = true) :
    (c.rollback n).1
      = ⟨c.headHeader, c.tail.take (c.height - n), c.store.take (c.height - n + 1),
          c.storeOk⟩ := by
  unfold FilterCache.rollback
  rw [if_pos h]

/-- Every reachable cache verifies and keeps a working store. -/
theorem reach_invariant (H : Nat → Nat → Nat) (gH : Nat) (g : StoredHeader)
    (hg1 : g.header = gH) (hg2 : g.header = H g.hash 0) :
    ∀ c, Reach H g c → c.verify H gH = true ∧ c.storeOk = true := by
  intro c hr
  induction hr with
  | genesis =>
    constructor
    · simp only [FilterCache.verify, FilterCache.headers, verifyChain, Bool.and_eq_true,
        beq_iff_eq]
      exact ⟨hg1, hg2, trivial⟩
    · rfl
  | importStep c hs hr hch ih =>
    obtain ⟨hv, hsok⟩ := ih
    rw [importHeaders_fst c hs hsok]
    unfold FilterCache.verify at hv ⊢
    simp only [Bool.and_eq_true] at hv ⊢
    obtain ⟨hv1, hv2⟩ := hv
    refine ⟨⟨hv1, ?_⟩, hsok⟩
    have hform : (⟨c.headHeader, c.tail ++ hs.map (fun p => StoredHeader.mk p.1 p.2),
        c.store ++ hs.map (fun p => StoredHeader.mk p.1 p.2), c.storeOk⟩
          : FilterCache).headers
        = c.headers ++ hs.map (fun p => StoredHeader.mk p.1 p.2) := by
      simp [FilterCache.headers]
    rw [hform, verifyChain_append, headers_getLast?_eq_tip]
    simp only [Option.map_some', Option.getD_some, Bool.and_eq_true]
    refine ⟨hv2, ?_⟩
    rw [← chainedB_eq_verifyChain]
    exact hch
  | rollbackStep c n hr hle ih =>
    obtain ⟨hv, hsok⟩ := ih
    rw [rollback_fst c n hsok]
    unfold FilterCache.verify at hv ⊢
    simp only [Bool.and_eq_true] at hv ⊢
    obtain ⟨hv1, hv2⟩ := hv
    refine ⟨⟨hv1, ?_⟩, hsok⟩
    have hform : (⟨c.headHeader, c.tail.take (c.height - n),
        c.store.take (c.height - n + 1), c.storeOk⟩ : FilterCache).headers
        = c.headers.take (c.height - n + 1) := by
      simp [FilterCache.headers, List.take_succ_cons]
    rw [hform]
    exact verifyChain_take H c.headers 0 (c.height - n + 1) hv2

/-- C4: for every cache state reachable from the genesis-only cache by
chained `import_headers` calls and in-range `rollback` calls, `verify`
succeeds and the height equals the number of stored records minus one; in
particular `rollback(n)` with `n <= height` leaves height `old - n` and
`verify` still succeeds.  The two genesis hypotheses say the network
genesis record is itself a valid chain start (true of the Bitcoin
networks: the genesis filter header is the commitment of the genesis
filter hash over the zero header). -/
theorem c4_cache_invariants (H : Nat → Nat → Nat) (gH : Nat) (g : StoredHeader)
    (hg1 : g.header = gH) (hg2 : g.header = H g.hash 0) :
    (∀ c, Reach H g c → c.verify H gH = true ∧ c.height = c.headers.length - 1) ∧
    (∀ c n, Reach H g c → n ≤ c.height →
      (c.rollback n).1.height = c.height - n ∧ (c.rollback n).1.verify H gH = true) := by
  constructor
  · intro c hr
    refine ⟨(reach_invariant H gH g hg1 hg2 c hr).1, ?_⟩
    simp [FilterCache.height, FilterCache.headers]
  · intro c n hr hle
    have hsok := (reach_invariant H gH g hg1 hg2 c hr).2
    constructor
    · rw [rollback_fst c n hsok]
      unfold FilterCache.height
      simp only [List.length_take]
      unfold FilterCache.height at hle
      omega
    · exact (reach_invariant H gH g hg1 hg2 _ (Reach.rollbackStep c n hr hle)).1

/-- Witness for C4: a two-step reachable cache (one import, then a
rollback by one) under the concrete environment. -/
theorem c4_witness :
    ((((FilterCache.mk cGen [] [cGen] true).importHeaders [(4, 54)]).1.rollback 1).1.height = 0) ∧
    ((((FilterCache.mk cGen [] [cGen] true).importHeaders [(4, 54)]).1.rollback 1).1.verify
        cEnv.H cGen.header = true) := by
  have hreach : Reach cEnv.H cGen ((FilterCache.mk cGen [] [cGen] true).importHeaders [(4, 54)]).1 :=
    Reach.importStep _ _ Reach.genesis (by decide)
  have h := (c4_cache_invariants cEnv.H cGen.header cGen rfl rfl).2 _ 1 hreach (by decide)
  constructor
  · rw [h.1]
    decide
  · exact h.2

theorem heightRangesGo_stop (step fuel start stop : Nat) (h : ¬ start < stop) :
    heightRangesGo step fuel start stop = [] := by
  cases fuel with
  | zero => rfl
  | succ f =>
    unfold heightRangesGo
    rw [if_neg h]

/-- When the whole inclusive range fits in one batch, the height iterator
yields a single range. -/
theorem heightRanges_single (s e step : Nat) (h1 : s < e) (h2 : e ≤ s + step - 1) :
    heightRanges s e step = [(s, e)] := by
  unfold heightRanges
  rcases hf : e - s with _ | f
  · omega
  · unfold heightRangesGo
    rw [if_pos h1]
    simp only [Nat.min_eq_left h2]
    rw [heightRangesGo_stop step f (e + 1) e (by omega)]

/-- C7 (amended): starting a rescan with no rescan active sets
`current = k` for a start bound `Included k` (and `tree.height() + 1` for
an unbounded start bound) and issues `get_cfilters` over
`k ..= cache.height()`; when the filter-header chain is caught up to block
height B, `k ≤ B`, at least one peer is connected, and the range fits in
one `MAX_MESSAGE_CFILTERS` batch (B ≤ k + 998), a single `getcfilters`
request with start height k and the hash of the block at height B is
emitted. -/
theorem c7_rescan (m : FilterManager) (tree : Tree) (k : Nat) (watch : List Nat)
    (stopB : Bound) (p : Nat) (ps : List Nat) (tb : Nat)
    (hact : m.rescan.active = false)
    (hcaught : m.filters.height = tree.height)
    (hk : k ≤ tree.height)
    (hnarrow : tree.height ≤ k + 998)
    (hpeers : m.peers = p :: ps)
    (htb : tree.getBlockByHeight tree.height = some tb) :
    (m.rescanCmd (Bound.included k) stopB watch tree).1.rescan.current = k ∧
    (m.rescanCmd (Bound.included k) stopB watch tree).2.1
      = [Out.getCfiltersMsg p k tb m.requestTimeout] ∧
    (m.rescanCmd (Bound.included k) stopB watch tree).2.2 = Except.ok () ∧
    (m.rescanCmd Bound.unbounded stopB watch tree).1.rescan.current = tree.height + 1 := by
  have hbatches : heightRanges k (tree.height + 1) 1000 = [(k, tree.height + 1)] :=
    heightRanges_single k (tree.height + 1) 1000 (by omega) (by omega)
  have hloop : getCfiltersLoop m.requestTimeout (p :: ps) tree [(k, tree.height + 1)] 0
      = ([Out.getCfiltersMsg p k tb m.requestTimeout], Except.ok ()) := by
    unfold getCfiltersLoop
    have hsub : tree.height + 1 - 1 = tree.height := by omega
    rw [hsub, htb]
    unfold getCfiltersLoop
    simp [cyclePeers]
  have hnempty : ¬ (k > m.filters.height) := by omega
  have hklt : ¬ (tree.height < k) := by omega
  refine ⟨?_, ?_, ?_, ?_⟩
  · unfold FilterManager.rescanCmd FilterManager.getCfilters
    simp [hact, hnempty, hcaught, hpeers, hbatches, hloop, hklt]
    try rw [if_neg hklt]
  · unfold FilterManager.rescanCmd FilterManager.getCfilters
    simp [hact, hnempty, hcaught, hpeers, hbatches, hloop, hklt]
    try rw [if_neg hklt]
  · unfold FilterManager.rescanCmd FilterManager.getCfilters
    simp [hact, hnempty, hcaught, hpeers, hbatches, hloop, hklt]
    try rw [if_neg hklt]
  · unfold FilterManager.rescanCmd FilterManager.getCfilters
    have hempty : tree.height + 1 > m.filters.height := by omega
    simp [hact, hempty]

/-- Witness for C7 (amended): a rescan from height 1 on a caught-up
two-block chain emits one request stopping at the tip. -/
theorem c7_witness :
    (FilterManager.rescanCmd ⟨30, [9], cRescan0, ⟨cGen, [⟨4, 54⟩], [cGen, ⟨4, 54⟩], true⟩, []⟩
        (Bound.included 1) Bound.unbounded [] cTree1).1.rescan.current = 1 ∧
    (FilterManager.rescanCmd ⟨30, [9], cRescan0, ⟨cGen, [⟨4, 54⟩], [cGen, ⟨4, 54⟩], true⟩, []⟩
        (Bound.included 1) Bound.unbounded [] cTree1).2.1
      = [Out.getCfiltersMsg 9 1 101 30] ∧
    (FilterManager.rescanCmd ⟨30, [9], cRescan0, ⟨cGen, [⟨4, 54⟩], [cGen, ⟨4, 54⟩], true⟩, []⟩
        (Bound.included 1) Bound.unbounded [] cTree1).2.2 = Except.ok () ∧
    (FilterManager.rescanCmd ⟨30, [9], cRescan0, ⟨cGen, [⟨4, 54⟩], [cGen, ⟨4, 54⟩], true⟩, []⟩
        Bound.unbounded Bound.unbounded [] cTree1).1.rescan.current = cTree1.height + 1 :=
  c7_rescan ⟨30, [9], cRescan0, ⟨cGen, [⟨4, 54⟩], [cGen, ⟨4, 54⟩], true⟩, []⟩ cTree1 1 []
    Bound.unbounded 9 [] 101 rfl rfl (by decide) (by decide) rfl (by decide)

set_option maxRecDepth 100000 in
/-- Counterexample to C7 as stated: with the chain caught up at B = 999,
one peer, and `rescan(Included(0), Unbounded, [])`, the only emitted
`getcfilters` request is `(start 0, stop block(998).hash)` — no request
carries both start height 0 and the stop hash of block B = 999, because
the single batch of the height iterator ends one height short. -/
theorem c7_counterexample :
    cMgrBig.filters.height = cTreeBig.height ∧
    cMgrBig.peers = [9] ∧
    Tree.getBlockByHeight cTreeBig cTreeBig.height = some 999 ∧
    (cMgrBig.rescanCmd (Bound.included 0) Bound.unbounded [] cTreeBig).2.1
      = [Out.getCfiltersMsg 9 0 998 30] ∧
    Out.getCfiltersMsg 9 0 999 30 ∉
      (cMgrBig.rescanCmd (Bound.included 0) Bound.unbounded [] cTreeBig).2.1 := by
  refine ⟨rfl, rfl, rfl, rfl, ?_⟩
  intro hmem
  rw [show (cMgrBig.rescanCmd (Bound.included 0) Bound.unbounded [] cTreeBig).2.1
      = [Out.getCfiltersMsg 9 0 998 30] from rfl] at hmem
  simp at hmem

/-- Every range the height iterator yields starts at or after the initial
cursor, and its stop is the minimum of the global stop bound and one short
of a full step past its start. -/
theorem heightRangesGo_mem (step fuel stop : Nat) (hstep : 1 ≤ step) :
    ∀ start, ∀ r ∈ heightRangesGo step fuel start stop,
      start ≤ r.1 ∧ r.2 = min stop (r.1 + step - 1) := by
  induction fuel with
  | zero =>
    intro start r hr
    simp [heightRangesGo] at hr
  | succ f ih =>
    intro start r hr
    unfold heightRangesGo at hr
    by_cases hlt : start < stop
    · rw [if_pos hlt] at hr
      simp only [List.mem_cons] at hr
      rcases hr with hr | hr
      · subst hr
        exact ⟨Nat.le_refl _, rfl⟩
      · have hb := ih (min stop (start + step - 1) + 1) r hr
        refine ⟨?_, hb.2⟩
        have : start ≤ min stop (start + step - 1) + 1 := by omega
        omega
    · rw [if_neg hlt] at hr
      simp at hr

/-- In a range of span at least 1000, no range yielded by the height
iterator (with the `MAX_MESSAGE_CFILTERS` step) covers the height
`s + 999`: the first batch stops at `s + 998` and every later batch
starts at `s + 1000` or beyond. -/
theorem heightRanges_gap (s e : Nat) (h : s + 999 ≤ e) :
    ∀ r ∈ heightRanges s (e + 1) 1000, ¬ (r.1 ≤ s + 999 ∧ s + 999 ≤ r.2 - 1) := by
  unfold heightRanges
  rcases hf : (e + 1 - s) with _ | f
  · omega
  · unfold heightRangesGo
    rw [if_pos (by omega : s < e + 1)]
    have hmin : min (e + 1) (s + 1000 - 1) = s + 999 := by omega
    simp only [hmin]
    intro r hr
    rcases List.mem_cons.mp hr with hhead | htail
    · subst hhead
      omega
    · have hb := heightRangesGo_mem 1000 f (e + 1) (by omega) (s + 999 + 1) r htail
      omega

theorem getCfiltersLoop_mem (timeout : Nat) (peers : List Nat) (tree : Tree) :
    ∀ (batches : List (Nat × Nat)) (i peer st sh t : Nat),
      Out.getCfiltersMsg peer st sh t ∈ (getCfiltersLoop timeout peers tree batches i).1 →
      ∃ r ∈ batches, st = r.1 ∧ tree.getBlockByHeight (r.2 - 1) = some sh := by
  intro batches
  induction batches with
  | nil =>
    intro i peer st sh t hmem
    simp [getCfiltersLoop] at hmem
  | cons r rest ih =>
    intro i peer st sh t hmem
    unfold getCfiltersLoop at hmem
    cases hb : tree.getBlockByHeight (r.2 - 1) with
    | none =>
      rw [hb] at hmem
      simp at hmem
    | some sh0 =>
      rw [hb] at hmem
      rcases hrec : getCfiltersLoop timeout peers tree rest (i + 1) with ⟨outs2, res2⟩
      rw [hrec] at hmem
      simp only [List.mem_cons] at hmem
      rcases hmem with hmem | hmem
      · simp only [Out.getCfiltersMsg.injEq] at hmem
        obtain ⟨h1, h2, h3, h4⟩ := hmem
        refine ⟨r, List.mem_cons_self _ _, h2, ?_⟩
        rw [h3]
        exact hb
      · obtain ⟨r2, hr2, hst, hsh⟩ := ih (i + 1) peer st sh t (by rw [hrec]; exact hmem)
        exact ⟨r2, List.mem_cons_of_mem _ hr2, hst, hsh⟩

theorem getCfiltersLoop_ok (timeout : Nat) (peers : List Nat) (tree : Tree) :
    ∀ (batches : List (Nat × Nat)) (i : Nat),
      (∀ r ∈ batches, (tree.getBlockByHeight (r.2 - 1)).isSome = true) →
      (getCfiltersLoop timeout peers tree batches i).2 = Except.ok () := by
  intro batches
  induction batches with
  | nil =>
    intro i hcov
    rfl
  | cons r rest ih =>
    intro i hcov
    unfold getCfiltersLoop
    cases hb : tree.getBlockByHeight (r.2 - 1) with
    | none =>
      have := hcov r (List.mem_cons_self _ _)
      rw [hb] at this
      simp at this
    | some sh0 =>
      rcases hrec : getCfiltersLoop timeout peers tree rest (i + 1) with ⟨outs2, res2⟩
      have hres2 : res2 = Except.ok () := by
        have := ih (i + 1) (fun r2 hr2 => hcov r2 (List.mem_cons_of_mem _ hr2))
        rw [hrec] at this
        exact this
      simp [hrec, hres2]

/-- Membership survives extending the duplicate-free requested set. -/
theorem mem_foldl_insertSet (xs : List Nat) :
    ∀ (l : List Nat) (x : Nat), (x ∈ xs ∨ x ∈ l) →
      x ∈ xs.foldl insertSet l := by
  induction xs with
  | nil =>
    intro l x hx
    rcases hx with hx | hx
    · simp at hx
    · simpa using hx
  | cons a rest ih =>
    intro l x hx
    simp only [List.foldl_cons]
    have hstep : ∀ (y : Nat), y ∈ l ∨ y = a → y ∈ insertSet l a := by
      intro y hy
      unfold insertSet
      by_cases hal : a ∈ l
      · rcases hy with hy | hy
        · simpa [hal] using hy
        · subst hy
          simpa [hal] using hal
      · rcases hy with hy | hy
        · simp [hal, hy]
        · subst hy
          simp [hal]
    rcases hx with hx | hx
    · rcases List.mem_cons.mp hx with hx1 | hx1
      · exact ih _ x (Or.inr (hstep x (Or.inr hx1)))
      · exact ih _ x (Or.inl hx1)
    · exact ih _ x (Or.inr (hstep x (Or.inl hx)))

/-- C9: for every inclusive range `[s, e]` spanning at least
`MAX_MESSAGE_CFILTERS` (1000) heights handed to `get_cfilters` with a
rescan active and a non-empty peer table, the call succeeds but the
emitted requests do not cover the whole range: every emitted `getcfilters`
request corresponds to a height-iterator batch, no batch covers the height
`s + 999` (the first batch stops at `s + 998`, the next starts at
`s + 1000`), and yet `rescan.requested` is extended with every height of
the range, `s + 999` included — that height is never requested from any
peer. -/
theorem c9_uncovered_height (m : FilterManager) (tree : Tree) (s e : Nat)
    (hspan : s + 999 ≤ e)
    (hact : m.rescan.active = true)
    (hpeers : m.peers.isEmpty = false)
    (hcov : ∀ h, h ≤ e → (tree.getBlockByHeight h).isSome = true) :
    (m.getCfilters s e tree).2.2 = Except.ok () ∧
    (∀ peer st sh t, Out.getCfiltersMsg peer st sh t ∈ (m.getCfilters s e tree).2.1 →
      ∃ r ∈ heightRanges s (e + 1) 1000,
        st = r.1 ∧ tree.getBlockByHeight (r.2 - 1) = some sh ∧
        ¬ (r.1 ≤ s + 999 ∧ s + 999 ≤ r.2 - 1)) ∧
    (s + 999) ∈ (m.getCfilters s e tree).1.rescan.requested := by
  have hse : ¬ (s > e) := by omega
  have hbcov : ∀ r ∈ heightRanges s (e + 1) 1000,
      (tree.getBlockByHeight (r.2 - 1)).isSome = true := by
    intro r hr
    have hb := heightRangesGo_mem 1000 (e + 1 - s) (e + 1) (by omega) s r hr
    apply hcov
    omega
  have hloopok := getCfiltersLoop_ok m.requestTimeout m.peers tree
    (heightRanges s (e + 1) 1000) 0 hbcov
  rcases hl : getCfiltersLoop m.requestTimeout m.peers tree (heightRanges s (e + 1) 1000) 0
    with ⟨outs, res⟩
  have hres : res = Except.ok () := by
    rw [hl] at hloopok
    exact hloopok
  subst hres
  have hres2 : (m.getCfilters s e tree).2.2 = Except.ok () := by
    unfold FilterManager.getCfilters
    simp [hse, hpeers, hl, hact]
  have houts : (m.getCfilters s e tree).2.1 = outs := by
    unfold FilterManager.getCfilters
    simp [hse, hpeers, hl, hact]
  have hreq : (m.getCfilters s e tree).1.rescan.requested
      = (List.range' s (e + 1 - s)).foldl insertSet m.rescan.requested := by
    unfold FilterManager.getCfilters
    simp [hse, hpeers, hl, hact]
  refine ⟨hres2, ?_, ?_⟩
  · intro peer st sh t hmem
    rw [houts] at hmem
    obtain ⟨r, hr, hst, hsh⟩ := getCfiltersLoop_mem m.requestTimeout m.peers tree
      (heightRanges s (e + 1) 1000) 0 peer st sh t (by rw [hl]; exact hmem)
    exact ⟨r, hr, hst, hsh, heightRanges_gap s e hspan r hr⟩
  · rw [hreq]
    apply mem_foldl_insertSet
    left
    rw [List.mem_range']
    exact ⟨999, by omega, by omega⟩

set_option maxRecDepth 100000 in
/-- Witness for C9 at the concrete thousand-block fixture: the range
`[0, 999]` spans 1000 heights; the call succeeds and height 999 ends up
in `requested` even though the sole emitted request stops at block 998. -/
theorem c9_witness :
    ((cMgrBig.rescanCmd (Bound.included 0) Bound.unbounded [] cTreeBig).1.getCfilters
        0 999 cTreeBig).2.2 = Except.ok () ∧
    999 ∈ ((cMgrBig.rescanCmd (Bound.included 0) Bound.unbounded [] cTreeBig).1.getCfilters
        0 999 cTreeBig).1.rescan.requested := by
  have h := c9_uncovered_height
    (cMgrBig.rescanCmd (Bound.included 0) Bound.unbounded [] cTreeBig).1 cTreeBig 0 999
    (by omega) (by rfl) (by rfl) (by decide)
  exact ⟨h.1, h.2.2⟩

theorem lookupRecv_cons (p : Nat × Nat × Nat) (l : List (Nat × Nat × Nat)) (j : Nat) :
    lookupRecv (p :: l) j = if p.1 = j then some p.2 else lookupRecv l j := by
  unfold lookupRecv
  rw [List.find?_cons]
  by_cases h : p.1 = j
  · simp [h]
  · have hb : (p.1 == j) = false := by simpa using h
    simp [hb, h]

theorem lookupRecv_eq_none (l : List (Nat × Nat × Nat)) (h : Nat)
    (hnk : h ∉ recvKeys l) : lookupRecv l h = none := by
  induction l with
  | nil => rfl
  | cons p rest ih =>
    simp only [recvKeys, List.map_cons, List.mem_cons, not_or] at hnk
    rw [lookupRecv_cons]
    rw [if_neg (fun he => hnk.1 he.symm)]
    exact ih (by simpa [recvKeys] using hnk.2)

theorem recvKeys_eraseP_nodup (l : List (Nat × Nat × Nat)) (pr : Nat × Nat × Nat → Bool)
    (hnd : (recvKeys l).Nodup) : (recvKeys (l.eraseP pr)).Nodup := by
  have hsub : (l.eraseP pr).Sublist l := List.eraseP_sublist l
  unfold recvKeys at hnd ⊢
  exact (hsub.map (fun p => p.1)).nodup hnd

theorem not_mem_recvKeys_eraseP (l : List (Nat × Nat × Nat)) (h : Nat)
    (hnd : (recvKeys l).Nodup) :
    h ∉ recvKeys (l.eraseP (fun p => p.1 == h)) := by
  induction l with
  | nil => simp [recvKeys]
  | cons p rest ih =>
    simp only [recvKeys, List.map_cons, List.nodup_cons] at hnd
    by_cases hph : p.1 = h
    · rw [List.eraseP_cons_of_pos (by simpa using hph)]
      intro hmem
      exact hnd.1 (by simpa [hph, recvKeys] using hmem)
    · rw [List.eraseP_cons_of_neg (by simpa using hph)]
      simp only [recvKeys, List.map_cons, List.mem_cons]
      intro hmem
      rcases hmem with hmem | hmem
      · exact hph hmem.symm
      · exact ih hnd.2 (by simpa [recvKeys] using hmem)

theorem lookupRecv_eraseP (l : List (Nat × Nat × Nat)) (h : Nat)
    (hnd : (recvKeys l).Nodup) :
    ∀ j, lookupRecv (l.eraseP (fun p => p.1 == h)) j
      = if j = h then none else lookupRecv l j := by
  induction l with
  | nil =>
    intro j
    by_cases hj : j = h <;> simp [hj, lookupRecv]
  | cons p rest ih =>
    intro j
    simp only [recvKeys, List.map_cons, List.nodup_cons] at hnd
    by_cases hph : p.1 = h
    · rw [List.eraseP_cons_of_pos (by simpa using hph)]
      by_cases hj : j = h
      · rw [if_pos hj]
        subst hj
        apply lookupRecv_eq_none
        intro hmem
        exact hnd.1 (by simpa [hph, recvKeys] using hmem)
      · rw [if_neg hj, lookupRecv_cons, if_neg (by omega : ¬ p.1 = j)]
    · rw [List.eraseP_cons_of_neg (by simpa using hph)]
      rw [lookupRecv_cons]
      by_cases hpj : p.1 = j
      · have hj : ¬ j = h := by omega
        rw [if_pos hpj, if_neg hj, lookupRecv_cons, if_pos hpj]
      · rw [if_neg hpj, ih hnd.2 j]
        by_cases hj : j = h
        · simp [hj]
        · rw [if_neg hj, if_neg hj, lookupRecv_cons, if_neg hpj]

theorem processGo_none (E : Env) (watch : List Nat) (txs : List (Nat × List Nat))
    (l : List (Nat × Nat × Nat)) (c : Nat)
    (hfind : l.find? (fun p => p.1 == c) = none) :
    processGo E watch txs l c = ⟨l, c, [], [], true⟩ := by
  unfold processGo
  split
  · rfl
  · rename_i entry heq
    rw [hfind] at heq
    cases heq

theorem processGo_some (E : Env) (watch : List Nat) (txs : List (Nat × List Nat))
    (l : List (Nat × Nat × Nat)) (c : Nat) (entry : Nat × Nat × Nat) (matched : Bool)
    (hfind : l.find? (fun p => p.1 == c) = some entry)
    (hm : matchFilter E watch txs entry.2.1 entry.2.2 = some matched) :
    processGo E watch txs l c
      = ⟨(processGo E watch txs (l.eraseP (fun p => p.1 == c)) (c + 1)).received,
         (processGo E watch txs (l.eraseP (fun p => p.1 == c)) (c + 1)).current,
         (if matched then [entry.2.2] else []) ++
           (processGo E watch txs (l.eraseP (fun p => p.1 == c)) (c + 1)).matchedBlocks,
         Out.event (Event.filterProcessed entry.2.2 c matched) ::
           (processGo E watch txs (l.eraseP (fun p => p.1 == c)) (c + 1)).outs,
         (processGo E watch txs (l.eraseP (fun p => p.1 == c)) (c + 1)).ok⟩ := by
  conv_lhs => unfold processGo
  split
  · rename_i heq
    rw [hfind] at heq
    cases heq
  · rename_i entry2 heq
    rw [hfind] at heq
    cases heq
    simp only [hm]

/-- Run lemma for the `process()` while-loop: if the received map is
exactly the entries for a duplicate-free height set S within `[c, b]` and
every match decodes, the loop consumes exactly the maximal run
`c, c + 1, ...` inside S, emits `FilterProcessed` events for those heights
in ascending order, and leaves the remaining entries of S untouched. -/
theorem processGo_run (E : Env) (watch : List Nat) (txs : List (Nat × List Nat))
    (filt bh : Nat → Nat) (b : Nat)
    (hmatch : ∀ f x, matchFilter E watch txs f x ≠ none) :
    ∀ (fuel c : Nat) (l : List (Nat × Nat × Nat)) (S : List Nat),
      b + 1 ≤ c + fuel →
      (recvKeys l).Nodup →
      S.Nodup →
      (∀ j, j ∈ S → c ≤ j ∧ j ≤ b) →
      (∀ j, lookupRecv l j = if j ∈ S then some (filt j, bh j) else none) →
      ∃ k,
        (∀ i, i < k → c + i ∈ S) ∧
        (c + k) ∉ S ∧
        (processGo E watch txs l c).current = c + k ∧
        (processGo E watch txs l c).outs
          = (List.range' c k).map (fun j => Out.event (Event.filterProcessed (bh j) j
              ((matchFilter E watch txs (filt j) (bh j)).getD false))) ∧
        (processGo E watch txs l c).ok = true ∧
        (recvKeys (processGo E watch txs l c).received).Nodup ∧
        (∀ j, lookupRecv (processGo E watch txs l c).received j
          = if j ∈ S ∧ c + k ≤ j then some (filt j, bh j) else none) := by
  intro fuel
  induction fuel with
  | zero =>
    intro c l S hfuel hnd hSnd hSb hlook
    have hS : ∀ j, j ∉ S := by
      intro j hj
      have := hSb j hj
      omega
    have hfind : l.find? (fun p => p.1 == c) = none := by
      have hl := hlook c
      rw [if_neg (hS c)] at hl
      unfold lookupRecv at hl
      exact Option.map_eq_none'.mp hl
    rw [processGo_none E watch txs l c hfind]
    refine ⟨0, by omega, by simpa using hS c, rfl, rfl, rfl, hnd, ?_⟩
    intro j
    rw [if_neg (by simp [hS j]), hlook j, if_neg (hS j)]
  | succ f ih =>
    intro c l S hfuel hnd hSnd hSb hlook
    by_cases hcS : c ∈ S
    · have hlookc := hlook c
      rw [if_pos hcS] at hlookc
      rcases hfo : l.find? (fun p => p.1 == c) with _ | entry
      · rw [lookupRecv] at hlookc
        rw [hfo] at hlookc
        simp at hlookc
      · have hval : entry.2 = (filt c, bh c) := by
          rw [lookupRecv, hfo] at hlookc
          simpa using hlookc
        rcases hmt : matchFilter E watch txs (filt c) (bh c) with _ | matched
        · exact absurd hmt (hmatch _ _)
        have hm2 : matchFilter E watch txs entry.2.1 entry.2.2 = some matched := by
          rw [hval]
          exact hmt
        have hndE : (recvKeys (l.eraseP (fun p => p.1 == c))).Nodup :=
          recvKeys_eraseP_nodup l _ hnd
        have hSE : (S.erase c).Nodup := hSnd.erase c
        have hSbE : ∀ j, j ∈ S.erase c → c + 1 ≤ j ∧ j ≤ b := by
          intro j hj
          have hj2 := (hSnd.mem_erase_iff).mp hj
          have := hSb j hj2.2
          have hne := hj2.1
          omega
        have hlookE : ∀ j, lookupRecv (l.eraseP (fun p => p.1 == c)) j
            = if j ∈ S.erase c then some (filt j, bh j) else none := by
          intro j
          rw [lookupRecv_eraseP l c hnd j]
          by_cases hj : j = c
          · subst hj
            rw [if_pos rfl, if_neg (by simp [hSnd.mem_erase_iff])]
          · rw [if_neg hj, hlook j]
            by_cases hjS : j ∈ S
            · rw [if_pos hjS, if_pos ((hSnd.mem_erase_iff).mpr ⟨hj, hjS⟩)]
            · rw [if_neg hjS, if_neg (fun hc => hjS ((hSnd.mem_erase_iff).mp hc).2)]
        obtain ⟨k, hk1, hk2, hk3, hk4, hk5, hk6, hk7⟩ :=
          ih (c + 1) (l.eraseP (fun p => p.1 == c)) (S.erase c) (by omega) hndE hSE hSbE hlookE
        rw [processGo_some E watch txs l c entry matched hfo hm2]
        refine ⟨k + 1, ?_, ?_, ?_, ?_, ?_, ?_, ?_⟩
        · intro i hi
          cases i with
          | zero => exact hcS
          | succ i2 =>
            have : c + 1 + i2 ∈ S.erase c := hk1 i2 (by omega)
            have := ((hSnd.mem_erase_iff).mp this).2
            have harith : c + (i2 + 1) = c + 1 + i2 := by omega
            rw [harith]
            assumption
        · intro hmem
          have hne : c + (k + 1) ≠ c := by omega
          have : c + 1 + k ∈ S.erase c := by
            apply (hSnd.mem_erase_iff).mpr
            constructor
            · omega
            · have harith : c + 1 + k = c + (k + 1) := by omega
              rw [harith]
              exact hmem
          exact hk2 this
        · simp only []
          rw [hk3]
          omega
        · simp only []
          rw [hk4]
          have hbh : entry.2.2 = bh c := by rw [hval]
          have hmv : (matchFilter E watch txs (filt c) (bh c)).getD false = matched := by
            rw [hmt]
            rfl
          rw [List.range'_succ, List.map_cons, hbh, hmv]
        · exact hk5
        · exact hk6
        · intro j
          rw [hk7 j]
          by_cases hcond : j ∈ S.erase c ∧ c + 1 + k ≤ j
          · rw [if_pos hcond]
            have hjS := ((hSnd.mem_erase_iff).mp hcond.1).2
            rw [if_pos ⟨hjS, by omega⟩]
          · rw [if_neg hcond]
            by_cases hcond2 : j ∈ S ∧ c + (k + 1) ≤ j
            · exfalso
              apply hcond
              constructor
              · apply (hSnd.mem_erase_iff).mpr
                exact ⟨by omega, hcond2.1⟩
              · omega
            · rw [if_neg hcond2]
    · have hfind : l.find? (fun p => p.1 == c) = none := by
        have hl := hlook c
        rw [if_neg hcS] at hl
        unfold lookupRecv at hl
        exact Option.map_eq_none'.mp hl
      rw [processGo_none E watch txs l c hfind]
      refine ⟨0, by omega, by simpa using hcS, rfl, rfl, rfl, hnd, ?_⟩
      intro j
      by_cases hjS : j ∈ S
      · have := hSb j hjS
        rw [if_pos ⟨hjS, by omega⟩, hlook j, if_pos hjS]
      · rw [if_neg (by simp [hjS]), hlook j, if_neg hjS]

theorem processRescan_ok (E : Env) (r : Rescan)
    (hok : (processGo E r.watch r.transactions r.received r.current).ok = true)
    (hstop : r.stop = none) :
    processRescan E r
      = ({ r with received := (processGo E r.watch r.transactions r.received r.current).received, current := (processGo E r.watch r.transactions r.received r.current).current },
          (processGo E r.watch r.transactions r.received r.current).outs,
          Except.ok (processGo E r.watch r.transactions r.received r.current).matchedBlocks) := by
  unfold processRescan
  rw [if_pos hok]
  rw [hstop]

theorem processRescan_ok_noComplete (E : Env) (r : Rescan) (s : Nat)
    (hok : (processGo E r.watch r.transactions r.received r.current).ok = true)
    (hstop : r.stop = some s)
    (hne : (processGo E r.watch r.transactions r.received r.current).current ≠ s) :
    processRescan E r
      = ({ r with received := (processGo E r.watch r.transactions r.received r.current).received, current := (processGo E r.watch r.transactions r.received r.current).current },
          (processGo E r.watch r.transactions r.received r.current).outs,
          Except.ok (processGo E r.watch r.transactions r.received r.current).matchedBlocks) := by
  unfold processRescan
  rw [if_pos hok]
  rw [hstop]
  simp [hne]

theorem processRescan_ok_complete (E : Env) (r : Rescan) (s : Nat)
    (hok : (processGo E r.watch r.transactions r.received r.current).ok = true)
    (hstop : r.stop = some s)
    (hcur : (processGo E r.watch r.transactions r.received r.current).current = s) :
    processRescan E r
      = (⟨false, (processGo E r.watch r.transactions r.received r.current).current, r.start,
            r.stop, r.watch, r.transactions, r.requested,
            (processGo E r.watch r.transactions r.received r.current).received⟩,
          (processGo E r.watch r.transactions r.received r.current).outs
            ++ [Out.event (Event.rescanCompleted s)],
          Except.ok (processGo E r.watch r.transactions r.received r.current).matchedBlocks) := by
  unfold processRescan
  rw [if_pos hok]
  rw [hstop]
  simp [hcur, hstop]

theorem receivedCfilter_rescan_eq (E : Env) (m : FilterManager) (fromPeer : Nat)
    (msg : CFilterMsg) (tree : Tree) (h : Nat) (hd : Nat × Nat) (prev : Nat)
    (hft : msg.filterType = 0)
    (hblk : tree.getBlock msg.blockHash = some h)
    (hhdr : m.filters.getHeader h = some hd)
    (hprev : m.filters.getPrevHeader h = some prev)
    (hcommit : E.H (E.filterHash msg.filter) prev = hd.2)
    (hact : m.rescan.active = true)
    (hreq : h ∈ m.rescan.requested) :
    m.receivedCfilter E fromPeer msg tree
      = (let r1 : Rescan := { m.rescan with
            requested := m.rescan.requested.erase h,
            received := (h, msg.filter, msg.blockHash) ::
              m.rescan.received.eraseP (fun p => p.1 == h) };
         match (processRescan E r1).2.2 with
         | Except.ok ms =>
           ({ m with rescan := (processRescan E r1).1 },
             Out.event (Event.filterReceived fromPeer msg.filter h msg.blockHash)
               :: (processRescan E r1).2.1,
             Except.ok ms)
         | Except.error _ =>
           ({ m with rescan := (processRescan E r1).1 },
             Out.event (Event.filterReceived fromPeer msg.filter h msg.blockHash)
               :: (processRescan E r1).2.1,
             Except.ok [])) := by
  unfold FilterManager.receivedCfilter
  simp [hft, hblk, hhdr, hprev, hcommit, hact, hreq]

theorem processedHeights_map_range (bh : Nat → Nat) (mv : Nat → Bool) (c k : Nat) :
    processedHeights ((List.range' c k).map
      (fun j => Out.event (Event.filterProcessed (bh j) j (mv j)))) = List.range' c k := by
  unfold processedHeights
  rw [List.filterMap_map]
  have hcomp : ∀ j : Nat,
      ((fun o => match o with
        | Out.event (Event.filterProcessed _ h _) => some h
        | _ => none) ∘ (fun j => Out.event (Event.filterProcessed (bh j) j (mv j)))) j
      = some j := fun j => rfl
  calc (List.range' c k).filterMap _
      = (List.range' c k).filterMap (fun j => some j) := by
        apply List.filterMap_congr
        intro j _
        exact hcomp j
    _ = List.range' c k := by
        simp

theorem processedHeights_append (l1 l2 : List Out) :
    processedHeights (l1 ++ l2) = processedHeights l1 ++ processedHeights l2 := by
  unfold processedHeights
  rw [List.filterMap_append]

theorem processedHeights_recv_cons (p f ht bhash : Nat) (l : List Out) :
    processedHeights (Out.event (Event.filterReceived p f ht bhash) :: l)
      = processedHeights l := rfl

theorem processedHeights_completed_single (s : Nat) :
    processedHeights [Out.event (Event.rescanCompleted s)] = [] := rfl

/-- Delivering one valid, still-undelivered height h to `received_cfilter`
preserves the delivery invariant (with h added to the delivered set) and
emits `FilterProcessed` events exactly for the run of consecutive heights
the cursor can now cross, in ascending order. -/
theorem deliver_step (E : Env) (m0 : FilterManager) (tree : Tree) (fromPeer a b : Nat)
    (filt bh : Nat → Nat)
    (hmatch : ∀ f x, matchFilter E m0.rescan.watch m0.rescan.transactions f x ≠ none)
    (hvalid : ∀ h, a ≤ h → h ≤ b →
      tree.getBlock (bh h) = some h ∧
      ∃ hd prev, m0.filters.getHeader h = some hd ∧ m0.filters.getPrevHeader h = some prev ∧
        E.H (E.filterHash (filt h)) prev = hd.2)
    (m : FilterManager) (D : List Nat) (c h : Nat)
    (hinv : DeliveryInv E m0 a b filt bh D m c)
    (hha : a ≤ h) (hhb : h ≤ b) (hhD : h ∉ D) :
    ∃ c2,
      DeliveryInv E m0 a b filt bh (h :: D)
        (m.receivedCfilter E fromPeer ⟨0, bh h, filt h⟩ tree).1 c2 ∧
      c ≤ c2 ∧
      processedHeights (m.receivedCfilter E fromPeer ⟨0, bh h, filt h⟩ tree).2.1
        = List.range' c (c2 - c) := by
  obtain ⟨hblk, hd, prev, hhdr, hprev, hcommit⟩ := hvalid h hha hhb
  have hhc : c ≤ h := by
    by_contra hlt
    exact hhD (hinv.processedMem h hha (by omega))
  have hact : m.rescan.active = true := by
    rcases hinv.activeOr with ha | ha
    · exact ha
    · omega
  have hreqh : h ∈ m.rescan.requested := (hinv.reqMem h).mpr ⟨hha, hhb, hhD⟩
  rw [receivedCfilter_rescan_eq E m fromPeer ⟨0, bh h, filt h⟩ tree h hd prev rfl hblk
    (by rw [hinv.filtersEq]; exact hhdr) (by rw [hinv.filtersEq]; exact hprev) hcommit
    hact hreqh]
  have hr1eq : ({ m.rescan with
        requested := m.rescan.requested.erase h,
        received := (h, filt h, bh h) ::
          m.rescan.received.eraseP (fun p => p.1 == h) } : Rescan)
      = ⟨true, c, m.rescan.start, m.rescan.stop, m.rescan.watch, m.rescan.transactions,
          m.rescan.requested.erase h,
          (h, filt h, bh h) :: m.rescan.received.eraseP (fun p => p.1 == h)⟩ := by
    show Rescan.mk m.rescan.active m.rescan.current m.rescan.start m.rescan.stop
      m.rescan.watch m.rescan.transactions (m.rescan.requested.erase h)
      ((h, filt h, bh h) :: m.rescan.received.eraseP (fun p => p.1 == h)) = _
    rw [hact, hinv.currentEq]
  simp only [hr1eq]
  have hconsND : (h :: D).Nodup := List.nodup_cons.mpr ⟨hhD, hinv.DNodup⟩
  have hSmem : ∀ j, (j ∈ (h :: D).filter (fun j => decide (c ≤ j))) ↔ (j ∈ h :: D ∧ c ≤ j) := by
    intro j
    simp [List.mem_filter]
  have hSnd : ((h :: D).filter (fun j => decide (c ≤ j))).Nodup := hconsND.filter _
  have hSb2 : ∀ j, j ∈ (h :: D).filter (fun j => decide (c ≤ j)) → c ≤ j ∧ j ≤ b := by
    intro j hj
    obtain ⟨hj1, hj2⟩ := (hSmem j).mp hj
    rcases List.mem_cons.mp hj1 with hj3 | hj3
    · subst hj3
      exact ⟨hj2, hhb⟩
    · exact ⟨hj2, (hinv.DRange j hj3).2⟩
  have hr1nodup : (recvKeys ((h, filt h, bh h) ::
      m.rescan.received.eraseP (fun p => p.1 == h))).Nodup := by
    unfold recvKeys
    rw [List.map_cons]
    refine List.nodup_cons.mpr ⟨?_, ?_⟩
    · exact not_mem_recvKeys_eraseP m.rescan.received h hinv.recvNodup
    · exact recvKeys_eraseP_nodup m.rescan.received _ hinv.recvNodup
  have hr1look : ∀ j, lookupRecv ((h, filt h, bh h) ::
        m.rescan.received.eraseP (fun p => p.1 == h)) j
      = if j ∈ (h :: D).filter (fun j => decide (c ≤ j)) then some (filt j, bh j) else none := by
    intro j
    rw [lookupRecv_cons]
    by_cases hjh : h = j
    · subst hjh
      rw [if_pos rfl, if_pos ((hSmem h).mpr ⟨List.mem_cons_self _ _, hhc⟩)]
    · rw [if_neg hjh, lookupRecv_eraseP m.rescan.received h hinv.recvNodup j,
        if_neg (fun he => hjh he.symm), hinv.recvLook j]
      by_cases hjc : j ∈ D ∧ c ≤ j
      · rw [if_pos hjc, if_pos ((hSmem j).mpr ⟨List.mem_cons_of_mem _ hjc.1, hjc.2⟩)]
      · rw [if_neg hjc, if_neg (fun hs => hjc ⟨by
          rcases List.mem_cons.mp ((hSmem j).mp hs).1 with h3 | h3
          · exact absurd h3.symm hjh
          · exact h3, ((hSmem j).mp hs).2⟩)]
  have hmatch2 : ∀ f x, matchFilter E m.rescan.watch m.rescan.transactions f x ≠ none := by
    rw [hinv.watchEq, hinv.txsEq]
    exact hmatch
  obtain ⟨k, hk1, hk2, hk3, hk4, hk5, hk6, hk7⟩ :=
    processGo_run E m.rescan.watch m.rescan.transactions filt bh b hmatch2 (b + 1 - c) c
      ((h, filt h, bh h) :: m.rescan.received.eraseP (fun p => p.1 == h))
      ((h :: D).filter (fun j => decide (c ≤ j)))
      (by have := hinv.upperC; omega) hr1nodup hSnd hSb2 hr1look
  have hLower : a ≤ c + k := by
    have := hinv.lowerC
    omega
  have hUpper : c + k ≤ b + 1 := by
    rcases k with _ | kk
    · have := hinv.upperC
      omega
    · have hmem := hk1 kk (by omega)
      have := (hSb2 _ hmem).2
      omega
  have hPMem : ∀ j, a ≤ j → j < c + k → j ∈ h :: D := by
    intro j hj1 hj2
    by_cases hjc : j < c
    · exact List.mem_cons_of_mem _ (hinv.processedMem j hj1 hjc)
    · have hi := hk1 (j - c) (by omega)
      have harith : c + (j - c) = j := by omega
      rw [harith] at hi
      exact ((hSmem j).mp hi).1
  have hCNot : (c + k) ∉ h :: D := fun hmem =>
    hk2 ((hSmem (c + k)).mpr ⟨hmem, by omega⟩)
  have hDR : ∀ j, j ∈ h :: D → a ≤ j ∧ j ≤ b := by
    intro j hj
    rcases List.mem_cons.mp hj with hj | hj
    · subst hj
      exact ⟨hha, hhb⟩
    · exact hinv.DRange j hj
  have hReqMem : ∀ j, j ∈ m.rescan.requested.erase h ↔ (a ≤ j ∧ j ≤ b ∧ j ∉ h :: D) := by
    intro j
    rw [List.Nodup.mem_erase_iff hinv.reqNodup, hinv.reqMem j]
    simp only [List.mem_cons, not_or]
    constructor
    · rintro ⟨hne, hja, hjb, hjd⟩
      exact ⟨hja, hjb, hne, hjd⟩
    · rintro ⟨hja, hjb, hne, hjd⟩
      exact ⟨hne, hja, hjb, hjd⟩
  have hRecvLook : ∀ j, lookupRecv (processGo E m.rescan.watch m.rescan.transactions
        ((h, filt h, bh h) :: m.rescan.received.eraseP (fun p => p.1 == h)) c).received j
      = if j ∈ h :: D ∧ c + k ≤ j then some (filt j, bh j) else none := by
    intro j
    rw [hk7 j]
    by_cases hcond : j ∈ h :: D ∧ c + k ≤ j
    · rw [if_pos ⟨(hSmem j).mpr ⟨hcond.1, by omega⟩, hcond.2⟩, if_pos hcond]
    · rw [if_neg hcond, if_neg (fun hc2 => hcond ⟨((hSmem j).mp hc2.1).1, hc2.2⟩)]
  have hEv : processedHeights (processGo E m.rescan.watch m.rescan.transactions
        ((h, filt h, bh h) :: m.rescan.received.eraseP (fun p => p.1 == h)) c).outs
      = List.range' c k := by
    rw [hk4]
    exact processedHeights_map_range bh
      (fun j => (matchFilter E m.rescan.watch m.rescan.transactions (filt j) (bh j)).getD false)
      c k
  rcases hstopc : m.rescan.stop with _ | s
  · rw [processRescan_ok E _ hk5 rfl]
    refine ⟨c + k, ⟨Or.inl rfl, fun s2 hs2 => Option.noConfusion hs2, hinv.watchEq,
      hinv.txsEq, hinv.filtersEq, hk3, hLower, hUpper, hPMem, hCNot, hDR, hconsND,
      hReqMem, hinv.reqNodup.erase h, hk6, hRecvLook⟩, by omega, ?_⟩
    rw [processedHeights_recv_cons, hEv, Nat.add_sub_cancel_left]
  · have hsafe2 : ∀ s2, (some s : Option Nat) = some s2 → (s2 < a ∨ b < s2) := by
      intro s2 hs2
      injection hs2 with he
      subst he
      exact hinv.stopSafe s hstopc
    by_cases heqc : c + k = s
    · have hsb1 : s = b + 1 := by
        rcases hinv.stopSafe s hstopc with hs | hs
        · omega
        · omega
      have hcur2 : (processGo E m.rescan.watch m.rescan.transactions
          ((h, filt h, bh h) :: m.rescan.received.eraseP (fun p => p.1 == h)) c).current
            = s := by rw [hk3]; exact heqc
      rw [processRescan_ok_complete E _ s hk5 rfl hcur2]
      refine ⟨c + k, ⟨Or.inr (by omega), hsafe2,
        hinv.watchEq, hinv.txsEq, hinv.filtersEq, hk3, hLower, hUpper, hPMem,
        hCNot, hDR, hconsND, hReqMem, hinv.reqNodup.erase h, hk6, hRecvLook⟩,
        by omega, ?_⟩
      rw [processedHeights_recv_cons, processedHeights_append, hEv,
        processedHeights_completed_single, List.append_nil, Nat.add_sub_cancel_left]
    · have hcur2 : (processGo E m.rescan.watch m.rescan.transactions
          ((h, filt h, bh h) :: m.rescan.received.eraseP (fun p => p.1 == h)) c).current
            ≠ s := by rw [hk3]; exact heqc
      rw [processRescan_ok_noComplete E _ s hk5 rfl hcur2]
      refine ⟨c + k, ⟨Or.inl rfl, hsafe2,
        hinv.watchEq, hinv.txsEq, hinv.filtersEq, hk3, hLower, hUpper, hPMem,
        hCNot, hDR, hconsND, hReqMem, hinv.reqNodup.erase h, hk6, hRecvLook⟩,
        by omega, ?_⟩
      rw [processedHeights_recv_cons, hEv, Nat.add_sub_cancel_left]

/-- Folding any list of distinct, valid, undelivered heights through
`received_cfilter` preserves the delivery invariant and emits the
`FilterProcessed` events for the contiguous prefix the cursor crosses, in
ascending order. -/
theorem deliverAll_run (E : Env) (m0 : FilterManager) (tree : Tree) (fromPeer a b : Nat)
    (filt bh : Nat → Nat)
    (hmatch : ∀ f x, matchFilter E m0.rescan.watch m0.rescan.transactions f x ≠ none)
    (hvalid : ∀ h, a ≤ h → h ≤ b →
      tree.getBlock (bh h) = some h ∧
      ∃ hd prev, m0.filters.getHeader h = some hd ∧ m0.filters.getPrevHeader h = some prev ∧
        E.H (E.filterHash (filt h)) prev = hd.2) :
    ∀ (hs : List Nat) (m : FilterManager) (D : List Nat) (c : Nat),
      DeliveryInv E m0 a b filt bh D m c →
      hs.Nodup →
      (∀ h2, h2 ∈ hs → a ≤ h2 ∧ h2 ≤ b ∧ h2 ∉ D) →
      ∃ D2 c2,
        DeliveryInv E m0 a b filt bh D2 (deliverAll E fromPeer tree filt bh m hs).1 c2 ∧
        (∀ j, j ∈ D2 ↔ (j ∈ hs ∨ j ∈ D)) ∧
        c ≤ c2 ∧
        processedHeights (deliverAll E fromPeer tree filt bh m hs).2
          = List.range' c (c2 - c) := by
  intro hs
  induction hs with
  | nil =>
    intro m D c hinv hnd hrange
    refine ⟨D, c, hinv, by simp, Nat.le_refl c, ?_⟩
    simp [deliverAll, processedHeights]
  | cons h hs2 ih =>
    intro m D c hinv hnd hrange
    obtain ⟨hha, hhb, hhD⟩ := hrange h (List.mem_cons_self _ _)
    obtain ⟨c1, hinv1, hcc1, hev1⟩ :=
      deliver_step E m0 tree fromPeer a b filt bh hmatch hvalid m D c h hinv hha hhb hhD
    have hnd2 := List.nodup_cons.mp hnd
    obtain ⟨D2, c2, hinv2, hD2, hc12, hev2⟩ :=
      ih (m.receivedCfilter E fromPeer ⟨0, bh h, filt h⟩ tree).1 (h :: D) c1 hinv1 hnd2.2
        (by
          intro h2 hh2
          obtain ⟨g1, g2, g3⟩ := hrange h2 (List.mem_cons_of_mem _ hh2)
          refine ⟨g1, g2, ?_⟩
          simp only [List.mem_cons, not_or]
          exact ⟨fun he => hnd2.1 (he ▸ hh2), g3⟩)
    refine ⟨D2, c2, ?_, ?_, by omega, ?_⟩
    · exact hinv2
    · intro j
      rw [hD2 j]
      simp only [List.mem_cons]
      tauto
    · show processedHeights ((m.receivedCfilter E fromPeer ⟨0, bh h, filt h⟩ tree).2.1
          ++ (deliverAll E fromPeer tree filt bh
              (m.receivedCfilter E fromPeer ⟨0, bh h, filt h⟩ tree).1 hs2).2)
        = List.range' c (c2 - c)
      unfold processedHeights
      rw [List.filterMap_append]
      have he1 : (m.receivedCfilter E fromPeer ⟨0, bh h, filt h⟩ tree).2.1.filterMap
          (fun o => match o with
            | Out.event (Event.filterProcessed _ h _) => some h
            | _ => none) = List.range' c (c1 - c) := hev1
      have he2 : (deliverAll E fromPeer tree filt bh
            (m.receivedCfilter E fromPeer ⟨0, bh h, filt h⟩ tree).1 hs2).2.filterMap
          (fun o => match o with
            | Out.event (Event.filterProcessed _ h _) => some h
            | _ => none) = List.range' c1 (c2 - c1) := hev2
      rw [he1, he2]
      have happ := List.range'_append c (c1 - c) (c2 - c1) 1
      have harith1 : c + 1 * (c1 - c) = c1 := by omega
      have harith2 : c2 - c1 + (c1 - c) = c2 - c := by omega
      rw [harith1, harith2] at happ
      exact happ

/-- C3 (amended): for an active rescan over `[a, b]` with every height
requested, nothing yet received, and whose end bound -- if any -- lies
outside `[a, b]` (unbounded, or `stop < a`, or `stop > b`), delivering
the valid `cfilter` messages for the heights of `[a, b]` in ANY permuted
order yields `FilterProcessed` events with strictly increasing heights
`a, a + 1, ..., b`: `process()` only ever consumes `rescan.received` at
exactly `rescan.current` and advances `current` by one per processed
filter. When the end bound lies inside `[a, b]` this FAILS: `process()`
deactivates the rescan once `current` reaches the bound and later
filters are dropped (see `c3_counterexample`). -/
theorem c3_in_order_processing (E : Env) (m : FilterManager) (tree : Tree)
    (fromPeer a b : Nat) (filt bh : Nat → Nat) (perm : List Nat)
    (hperm : perm.Perm (List.range' a (b + 1 - a)))
    (hab : a ≤ b)
    (hactive : m.rescan.active = true)
    (hstop : ∀ s, m.rescan.stop = some s → (s < a ∨ b < s))
    (hcur : m.rescan.current = a)
    (hrecv : m.rescan.received = [])
    (hreq : ∀ j, j ∈ m.rescan.requested ↔ (a ≤ j ∧ j ≤ b))
    (hreqnd : m.rescan.requested.Nodup)
    (hmatch : ∀ f x, matchFilter E m.rescan.watch m.rescan.transactions f x ≠ none)
    (hvalid : ∀ h, a ≤ h → h ≤ b →
      tree.getBlock (bh h) = some h ∧
      ∃ hd prev, m.filters.getHeader h = some hd ∧ m.filters.getPrevHeader h = some prev ∧
        E.H (E.filterHash (filt h)) prev = hd.2) :
    processedHeights (deliverAll E fromPeer tree filt bh m perm).2
      = List.range' a (b + 1 - a) := by
  have hinv0 : DeliveryInv E m a b filt bh [] m a :=
    { activeOr := Or.inl hactive, stopSafe := hstop, watchEq := rfl, txsEq := rfl, filtersEq := rfl,
      currentEq := hcur, lowerC := Nat.le_refl a, upperC := by omega,
      processedMem := fun j hj1 hj2 => absurd hj2 (by omega),
      cNotD := by simp, DRange := by simp, DNodup := List.nodup_nil,
      reqMem := fun j => by rw [hreq j]; simp,
      reqNodup := hreqnd,
      recvNodup := by rw [hrecv]; simp [recvKeys],
      recvLook := fun j => by rw [hrecv]; simp [lookupRecv] }
  have hpermnd : perm.Nodup := hperm.nodup_iff.mpr (List.nodup_range' a (b + 1 - a))
  have hmem : ∀ h2, h2 ∈ perm → a ≤ h2 ∧ h2 ≤ b ∧ h2 ∉ ([] : List Nat) := by
    intro h2 hh2
    have hr := hperm.mem_iff.mp hh2
    rw [List.mem_range'] at hr
    obtain ⟨i, hi1, hi2⟩ := hr
    refine ⟨by omega, by omega, by simp⟩
  obtain ⟨D2, c2, hinvF, hD2, hac2, hev⟩ :=
    deliverAll_run E m tree fromPeer a b filt bh hmatch hvalid perm m [] a hinv0 hpermnd hmem
  have hc2 : c2 = b + 1 := by
    rcases Nat.lt_or_ge c2 (b + 1) with hlt | hge
    · exfalso
      have hmr : c2 ∈ List.range' a (b + 1 - a) := by
        rw [List.mem_range']
        have := hinvF.lowerC
        exact ⟨c2 - a, by omega, by omega⟩
      exact hinvF.cNotD ((hD2 c2).mpr (Or.inl (hperm.mem_iff.mpr hmr)))
    · have := hinvF.upperC
      omega
  rw [hev, hc2]

/-- Witness for C3: heights 1 and 2 delivered out of order (2 first) on a
three-block chain still yield `FilterProcessed` events at heights 1, 2 in
ascending order. -/
theorem c3_witness :
    processedHeights (deliverAll cEnv 9 ⟨[100, 101, 102]⟩ (fun h => 11 * h) (fun h => 100 + h)
        ⟨30, [9], ⟨true, 1, some 1, none, [], [], [1, 2], []⟩,
          ⟨cGen, [⟨12, 70⟩, ⟨23, 257⟩], [], true⟩, []⟩ [2, 1]).2
      = List.range' 1 2 := by
  apply c3_in_order_processing cEnv
      ⟨30, [9], ⟨true, 1, some 1, none, [], [], [1, 2], []⟩,
        ⟨cGen, [⟨12, 70⟩, ⟨23, 257⟩], [], true⟩, []⟩
      ⟨[100, 101, 102]⟩ 9 1 2 (fun h => 11 * h) (fun h => 100 + h) [2, 1]
  · decide
  · decide
  · rfl
  · intro s hs
    cases hs
  · rfl
  · rfl
  · intro j
    simp
    omega
  · decide
  · intro f x
    simp [matchFilter]
  · intro h h1 h2
    interval_cases h
    · exact ⟨by decide, (12, 70), 15, by decide, by decide, by decide⟩
    · exact ⟨by decide, (23, 257), 70, by decide, by decide, by decide⟩

/-- Counterexample for C3 as stated over all rescans: a bounded rescan over
heights 1..2 whose end bound `some 2` lies inside the range. Delivering the
valid filters in ascending order [1, 2] -- a permutation of the range --
yields a `FilterProcessed` event only at height 1: processing height 1
advances `current` to 2, the end bound, so the completion check of
`process()` deactivates the rescan, and the filter for height 2, though
received and valid (its `FilterReceived` event is emitted), is dropped
without a `FilterProcessed` event. -/
theorem c3_counterexample :
    ([1, 2] : List Nat).Perm (List.range' 1 2) ∧
    processedHeights (deliverAll cEnv 9 ⟨[100, 101, 102]⟩ (fun h => 11 * h)
        (fun h => 100 + h)
        ⟨30, [9], ⟨true, 1, some 1, some 2, [], [], [1, 2], []⟩,
          ⟨cGen, [⟨12, 70⟩, ⟨23, 257⟩], [], true⟩, []⟩ [1, 2]).2 = [1] ∧
    [1] ≠ List.range' 1 2 ∧
    Out.event (Event.filterReceived 9 22 2 102) ∈
      (deliverAll cEnv 9 ⟨[100, 101, 102]⟩ (fun h => 11 * h) (fun h => 100 + h)
        ⟨30, [9], ⟨true, 1, some 1, some 2, [], [], [1, 2], []⟩,
          ⟨cGen, [⟨12, 70⟩, ⟨23, 257⟩], [], true⟩, []⟩ [1, 2]).2 := by
  have h1 : processGo cEnv [] [] [(1, 11, 101)] 1
      = ⟨[], 2, [], [Out.event (Event.filterProcessed 101 1 false)], true⟩ := by
    rw [processGo_some cEnv [] [] [(1, 11, 101)] 1 (1, 11, 101) false rfl rfl]
    rw [processGo_none cEnv [] []
      (List.eraseP (fun p => p.1 == 1) [(1, 11, 101)]) 2 rfl]
    decide
  have hpr : processRescan cEnv ⟨true, 1, some 1, some 2, [], [], [2], [(1, 11, 101)]⟩
      = (⟨false, 2, some 1, some 2, [], [], [2], []⟩,
         [Out.event (Event.filterProcessed 101 1 false),
          Out.event (Event.rescanCompleted 2)],
         Except.ok []) := by
    rw [processRescan_ok_complete cEnv
      ⟨true, 1, some 1, some 2, [], [], [2], [(1, 11, 101)]⟩ 2
      (by simp only [h1]) rfl (by simp only [h1])]
    simp only [h1]
    rfl
  have hs1 : FilterManager.receivedCfilter cEnv
      ⟨30, [9], ⟨true, 1, some 1, some 2, [], [], [1, 2], []⟩,
        ⟨cGen, [⟨12, 70⟩, ⟨23, 257⟩], [], true⟩, []⟩ 9 ⟨0, 100 + 1, 11 * 1⟩
      ⟨[100, 101, 102]⟩
      = (⟨30, [9], ⟨false, 2, some 1, some 2, [], [], [2], []⟩,
          ⟨cGen, [⟨12, 70⟩, ⟨23, 257⟩], [], true⟩, []⟩,
         [Out.event (Event.filterReceived 9 11 1 101),
          Out.event (Event.filterProcessed 101 1 false),
          Out.event (Event.rescanCompleted 2)],
         Except.ok []) := by
    rw [receivedCfilter_rescan_eq cEnv
      ⟨30, [9], ⟨true, 1, some 1, some 2, [], [], [1, 2], []⟩,
        ⟨cGen, [⟨12, 70⟩, ⟨23, 257⟩], [], true⟩, []⟩ 9 ⟨0, 100 + 1, 11 * 1⟩
      ⟨[100, 101, 102]⟩ 1 (12, 70) 15 rfl (by decide) (by decide) (by decide)
      (by decide) rfl (by decide)]
    simp only [List.eraseP_nil, List.erase_cons_head, hpr]
  have hs2 : FilterManager.receivedCfilter cEnv
      ⟨30, [9], ⟨false, 2, some 1, some 2, [], [], [2], []⟩,
        ⟨cGen, [⟨12, 70⟩, ⟨23, 257⟩], [], true⟩, []⟩ 9 ⟨0, 100 + 2, 11 * 2⟩
      ⟨[100, 101, 102]⟩
      = (⟨30, [9], ⟨false, 2, some 1, some 2, [], [], [2], []⟩,
          ⟨cGen, [⟨12, 70⟩, ⟨23, 257⟩], [], true⟩, []⟩,
         [Out.event (Event.filterReceived 9 22 2 102)],
         Except.ok []) := rfl
  have hD : deliverAll cEnv 9 ⟨[100, 101, 102]⟩ (fun h => 11 * h) (fun h => 100 + h)
      ⟨30, [9], ⟨true, 1, some 1, some 2, [], [], [1, 2], []⟩,
        ⟨cGen, [⟨12, 70⟩, ⟨23, 257⟩], [], true⟩, []⟩ [1, 2]
      = (⟨30, [9], ⟨false, 2, some 1, some 2, [], [], [2], []⟩,
          ⟨cGen, [⟨12, 70⟩, ⟨23, 257⟩], [], true⟩, []⟩,
         [Out.event (Event.filterReceived 9 11 1 101),
          Out.event (Event.filterProcessed 101 1 false),
          Out.event (Event.rescanCompleted 2),
          Out.event (Event.filterReceived 9 22 2 102)]) := by
    simp only [deliverAll, hs1, hs2, List.cons_append, List.nil_append]
  refine ⟨by decide, ?_, by decide, ?_⟩
  · rw [hD]
    decide
  · rw [hD]
    decide

end Nakamoto
